import Mathlib

/-!
Verification development for the rss-feed-backend ingestion-and-serving core.

The definitions below are a shallow embedding of the Go sources:
  * `utils/rss_parser.go` — the `FeedItem` model, content hash, duplicate
    predicate, sanitization, validation and feed construction;
  * the datastore handlers (`SaveToDatastore`, `CheckForDuplicates`,
    `BatchSaveToDatastoreWithDeduplication`, `calculateAdaptiveBatchSize`,
    `FetchFeedItemsWithFilter`);
  * the cache package (`calculateAdaptiveTTL`, `analyzeUpdateFrequency`);
  * the async processor (`SubmitJob`, `updateJobStatus`, `processJob`,
    `GetJobStatus`);
  * `main.go` (`getClientIdentifier`).

Modelling conventions:
  * Go strings are modelled by Lean `String` (sequences of characters; the
    byte/char distinction only matters for non-ASCII input and is noted where
    relevant).
  * The MD5 content hash `hex(md5(title ++ description ++ author))` is
    modelled by its pre-image `title ++ description ++ author`: two digests
    are equal exactly when the concatenations are equal, up to MD5 collisions
    which are not modelled.
  * SHA-256 hex digests in the client fingerprint are modelled by an
    arbitrary function parameter `h : String → String`.
  * `time.Duration` values are integers counted in nanoseconds; `time.Time`
    values relevant to cadence analysis are integers (nanoseconds since an
    arbitrary epoch).
  * float64 arithmetic in the backpressure check is modelled by exact
    rational arithmetic.
  * The external Google Cloud Datastore is modelled as a list of entities
    keyed by `Link`, with the query semantics of the store-adapter interface
    (conjunctive filters, string-ordered comparisons, descending order,
    offset, limit).
-/

namespace RSS

/-- Go `strings.ToLower`, modelled at character level (`unicode.ToLower`
per rune is modelled by `Char.toLower`; the two agree on ASCII). -/
def toLowerStr (s : String) : String := ⟨s.data.map Char.toLower⟩

/-- Go `strings.TrimSpace`, modelled at character level. -/
def trimStr (s : String) : String :=
  ⟨((s.data.dropWhile Char.isWhitespace).reverse.dropWhile
    Char.isWhitespace).reverse⟩

/-- `utils.FeedItem` (utils/rss_parser.go): an RSS feed item. -/
structure FeedItem where
  Title : String
  Link : String
  Description : String
  Author : String
  PubDate : String
deriving Repr, DecidableEq

/-- `FeedItem.GenerateContentHash` (utils/rss_parser.go): the MD5 digest of
`Title ++ Description ++ Author` is modelled by the concatenation itself
(digest equality = concatenation equality, collisions ignored). -/
def FeedItem.GenerateContentHash (f : FeedItem) : String :=
  f.Title ++ f.Description ++ f.Author

/-- `FeedItem.IsDuplicate` (utils/rss_parser.go): exact link match, or equal
(title, author), or equal content hash, short-circuiting in that order. -/
def FeedItem.IsDuplicate (f other : FeedItem) : Bool :=
  f.Link == other.Link
    || (f.Title == other.Title && f.Author == other.Author)
    || f.GenerateContentHash == other.GenerateContentHash

/-- `FeedItem.Sanitize` (utils/rss_parser.go): trim all string fields. -/
def FeedItem.Sanitize (f : FeedItem) : FeedItem :=
  { Title := trimStr f.Title
    Link := trimStr f.Link
    Description := trimStr f.Description
    Author := trimStr f.Author
    PubDate := trimStr f.PubDate }

/-- The external datastore: a flat set of `FeedItem` entities of kind
`FeedItem`, keyed by `Link`.  Modelled as a list holding at most one entity
per link (puts are upserts). -/
def Store := List FeedItem
deriving DecidableEq

instance : Repr Store := inferInstanceAs (Repr (List FeedItem))

/-- Store-adapter keyed `Get`: the entity stored under the given link, if
any (`datastore.ErrNoSuchEntity` is modelled by `none`). -/
def Store.getByLink (s : Store) (l : String) : Option FeedItem :=
  List.find? (fun e => e.Link == l) s

/-- A single keyed upsert: replace the entity at the item's link, or append
the item if the link is absent. -/
def Store.putItem (s : Store) (it : FeedItem) : Store :=
  if (List.any s (fun e => e.Link == it.Link)) then
    List.map (fun e => if e.Link == it.Link then it else e) s
  else
    List.append s [it]

/-- Store-adapter `PutMulti`: batched upsert, applied in order. -/
def Store.putMulti (s : Store) (batch : List FeedItem) : Store :=
  List.foldl Store.putItem s batch

/-- A Go `map[string]*utils.FeedItem`, as an association list with
insert-or-overwrite semantics. -/
def HashMapGo := List (String × FeedItem)

/-- Go map assignment `m[k] = v`: overwrite if the key is present, else add. -/
def HashMapGo.insert (m : HashMapGo) (k : String) (v : FeedItem) : HashMapGo :=
  if (List.any m (fun p => p.1 == k)) then
    List.map (fun p => if p.1 == k then (k, v) else p) m
  else
    List.append m [(k, v)]

/-- Go map lookup `m[k]`. -/
def HashMapGo.lookup (m : HashMapGo) (k : String) : Option FeedItem :=
  (List.find? (fun p => p.1 == k) m).map Prod.snd

/-- `CheckForDuplicates` (datastore handlers): for each input item, `Get` the
entity stored under the input item's own link; when found, record it in a map
keyed by the input item's content hash.  Store `Get` is modelled as
infallible apart from the missing-entity case, so the error return path is
not represented. -/
def CheckForDuplicates (s : Store) (items : List FeedItem) : HashMapGo :=
  List.foldl
    (fun m it =>
      match s.getByLink it.Link with
      | some existing => m.insert it.GenerateContentHash existing
      | none => m)
    [] items

/-- The batch loop of `BatchSaveToDatastoreWithDeduplication`: walk the
unique items in contiguous slices of `batchSize`, calling `PutMulti` once per
slice.  `fails i` says whether the `PutMulti` call for the batch starting at
index `i` returns an error.  Returns the running new-item count, the store,
the trace of batches actually put (in order), and `some i` when the batch
starting at index `i` failed (the Go error names that index).  Go diverges
when `batchSize = 0`; that case is modelled as an immediate return and all
theorems assume a positive batch size. -/
def saveLoop (fails : Nat → Bool) (batchSize : Nat) :
    Store → List FeedItem → Nat → Nat → List (List FeedItem) →
      Nat × Store × List (List FeedItem) × Option Nat
  | s, l, i, acc, tr =>
    if _h : batchSize = 0 ∨ l = [] then (acc, s, tr.reverse, none)
    else
      let batch := l.take batchSize
      if fails i then (acc, s, tr.reverse, some i)
      else
        saveLoop fails batchSize (s.putMulti batch) (l.drop batchSize)
          (i + batchSize) (acc + batch.length) (batch :: tr)
termination_by _ l => l.length
decreasing_by
  simp only [not_or] at _h
  have h1 : batchSize ≠ 0 := _h.1
  have h2 : l ≠ [] := _h.2
  have : 0 < l.length := List.length_pos.mpr h2
  have : 0 < batchSize := Nat.pos_of_ne_zero h1
  simp [List.length_drop]
  omega

/-- `BatchSaveToDatastoreWithDeduplication` (datastore handlers): check for
duplicates, filter the inputs against the existing-entity map under
`IsDuplicate`, then save the survivors in batches.  Returns
(new-item count, final store, put trace, error index). -/
def BatchSaveToDatastoreWithDeduplication (fails : Nat → Bool) (s : Store)
    (items : List FeedItem) (batchSize : Nat) :
    Nat × Store × List (List FeedItem) × Option Nat :=
  let existingItems := CheckForDuplicates s items
  let uniqueItems := items.filter (fun it =>
    match existingItems.lookup it.GenerateContentHash with
    | some existing => !(it.IsDuplicate existing)
    | none => true)
  saveLoop fails batchSize s uniqueItems 0 0 []

/-- `calculateAdaptiveBatchSize` (datastore handlers): a caller-supplied
positive size wins; otherwise the batch size adapts to the item count. -/
def calculateAdaptiveBatchSize (itemCount configuredBatchSize : Int) : Int :=
  if configuredBatchSize > 0 then configuredBatchSize
  else if itemCount ≤ 10 then 50
  else if itemCount ≤ 50 then 200
  else if itemCount ≤ 200 then 500
  else if itemCount ≤ 1000 then 1000
  else 2000

/-- `getBatchSizeFromConfig` (datastore handlers): first positive variadic
argument, else 0 (meaning adaptive). -/
def getBatchSizeFromConfig (batchSize : List Int) : Int :=
  match batchSize with
  | b :: _ => if b > 0 then b else 0
  | [] => 0

/-- The contiguous partition of a list into slices of `b` elements (the last
slice possibly shorter), matching the index arithmetic of the batch loops. -/
def chunks (b : Nat) (l : List FeedItem) : List (List FeedItem) :=
  if _h : b = 0 ∨ l = [] then [] else l.take b :: chunks b (l.drop b)
termination_by l.length
decreasing_by
  simp only [not_or] at _h
  have : 0 < l.length := List.length_pos.mpr _h.2
  have : 0 < b := Nat.pos_of_ne_zero _h.1
  simp [List.length_drop]
  omega

lemma chunks_nil (b : Nat) : chunks b [] = [] := by
  rw [chunks]; simp

lemma chunks_cons (b : Nat) (hb : 0 < b) (l : List FeedItem) (hl : l ≠ []) :
    chunks b l = l.take b :: chunks b (l.drop b) := by
  rw [chunks]; simp [hl, Nat.pos_iff_ne_zero.mp hb]

lemma putMulti_append (s : Store) (l1 l2 : List FeedItem) :
    Store.putMulti s (l1 ++ l2) = Store.putMulti (Store.putMulti s l1) l2 :=
  List.foldl_append _ _ _ _

lemma chunks_flatten (b : Nat) (hb : 0 < b) (l : List FeedItem) :
    (chunks b l).flatten = l := by
  suffices H : ∀ (n : Nat) (l : List FeedItem), l.length = n → (chunks b l).flatten = l from
    H l.length l rfl
  intro n
  induction n using Nat.strong_induction_on with
  | _ n ih =>
    intro l hn
    by_cases hl : l = []
    · subst hl; simp [chunks_nil]
    · rw [chunks_cons b hb l hl]
      have hlen : 0 < l.length := List.length_pos.mpr hl
      have hdrop : (l.drop b).length < n := by
        subst hn; simp [List.length_drop]; omega
      simp only [List.flatten_cons]
      rw [ih _ hdrop (l.drop b) rfl, List.take_append_drop]

lemma chunks_mem_size (b : Nat) (hb : 0 < b) (l : List FeedItem) :
    ∀ c ∈ chunks b l, c ≠ [] ∧ c.length ≤ b := by
  suffices H : ∀ (n : Nat) (l : List FeedItem), l.length = n →
      ∀ c ∈ chunks b l, c ≠ [] ∧ c.length ≤ b from H l.length l rfl
  intro n
  induction n using Nat.strong_induction_on with
  | _ n ih =>
    intro l hn
    by_cases hl : l = []
    · subst hl; simp [chunks_nil]
    · rw [chunks_cons b hb l hl]
      intro c hc
      rcases List.mem_cons.mp hc with h | h
      · subst h
        have hlen : 0 < l.length := List.length_pos.mpr hl
        constructor
        · simp [List.take_eq_nil_iff, hl]
          omega
        · simp [List.length_take]
      · have hdrop : (l.drop b).length < n := by
          have hlen : 0 < l.length := List.length_pos.mpr hl
          subst hn; simp [List.length_drop]; omega
        exact ih _ hdrop (l.drop b) rfl c h

lemma chunks_ne_nil (b : Nat) (hb : 0 < b) (l : List FeedItem) (hl : l ≠ []) :
    chunks b l ≠ [] := by
  rw [chunks_cons b hb l hl]; simp

lemma chunks_dropLast_size (b : Nat) (hb : 0 < b) (l : List FeedItem) :
    ∀ c ∈ (chunks b l).dropLast, c.length = b := by
  suffices H : ∀ (n : Nat) (l : List FeedItem), l.length = n →
      ∀ c ∈ (chunks b l).dropLast, c.length = b from H l.length l rfl
  intro n
  induction n using Nat.strong_induction_on with
  | _ n ih =>
    intro l hn
    by_cases hl : l = []
    · subst hl; simp [chunks_nil]
    · rw [chunks_cons b hb l hl]
      intro c hc
      by_cases hd : l.drop b = []
      · rw [hd, chunks_nil] at hc
        simp at hc
      · rw [List.dropLast_cons_of_ne_nil (chunks_ne_nil b hb _ hd)] at hc
        rcases List.mem_cons.mp hc with h | h
        · subst h
          have : b < l.length := by
            have := List.length_pos.mpr hd
            simp [List.length_drop] at this
            omega
          simp [List.length_take]
          omega
        · have hdrop : (l.drop b).length < n := by
            have hlen : 0 < l.length := List.length_pos.mpr hl
            subst hn; simp [List.length_drop]; omega
          exact ih _ hdrop (l.drop b) rfl c h

lemma chunks_take_succ (b : Nat) (hb : 0 < b) (m : Nat) (l : List FeedItem)
    (h : (m + 1) * b ≤ l.length) :
    chunks b (l.take ((m + 1) * b)) =
      l.take b :: chunks b ((l.drop b).take (m * b)) := by
  have hlpos : 0 < l.length := by
    have hmb : 0 < (m + 1) * b := Nat.mul_pos (Nat.succ_pos m) hb
    omega
  have hl : l ≠ [] := List.length_pos.mp hlpos
  have htpos : l.take ((m + 1) * b) ≠ [] := by
    simp [List.take_eq_nil_iff, hl]
    omega
  rw [chunks_cons b hb _ htpos]
  have hsplit : (m + 1) * b = b + m * b := by ring
  congr 1
  · rw [hsplit, List.take_add,
      List.take_append_of_le_length (by simp [List.length_take]; omega),
      List.take_take]
    simp
  · congr 1
    rw [hsplit, List.drop_take]
    congr 1
    omega

lemma chunks_take (b : Nat) (hb : 0 < b) :
    ∀ (j : Nat) (l : List FeedItem), j * b ≤ l.length →
      (chunks b l).take j = chunks b (l.take (j * b)) := by
  intro j
  induction j with
  | zero => intro l _; simp [chunks_nil]
  | succ m ih =>
    intro l hj
    have hb1 : b ≠ 0 := Nat.pos_iff_ne_zero.mp hb
    have hlpos : 0 < l.length := by
      have hmb : 0 < (m + 1) * b := Nat.mul_pos (Nat.succ_pos m) hb
      omega
    have hl : l ≠ [] := List.length_pos.mp hlpos
    have htpos : l.take ((m + 1) * b) ≠ [] := by
      simp [List.take_eq_nil_iff, hl]
      omega
    rw [chunks_cons b hb l hl, List.take_succ_cons,
      chunks_cons b hb _ htpos]
    have hsplit : (m + 1) * b = b + m * b := by ring
    congr 1
    · rw [hsplit, List.take_add, List.take_append_of_le_length (by simp [List.length_take]; omega),
        List.take_take]
      simp
    · rw [ih (l.drop b) (by simp [List.length_drop]; omega)]
      congr 1
      rw [hsplit, List.drop_take]
      congr 1
      omega

lemma saveLoop_ok (fails : Nat → Bool) (b : Nat) (hb : 0 < b)
    (hf : ∀ j, fails j = false) :
    ∀ (n : Nat) (l : List FeedItem) (s : Store) (i acc : Nat)
      (tr : List (List FeedItem)), l.length = n →
      saveLoop fails b s l i acc tr =
        (acc + l.length, s.putMulti l, tr.reverse ++ chunks b l, none) := by
  intro n
  induction n using Nat.strong_induction_on with
  | _ n ih =>
    intro l s i acc tr hn
    by_cases hl : l = []
    · subst hl
      rw [saveLoop]
      simp [chunks_nil, Store.putMulti]
    · have hcond : ¬(b = 0 ∨ l = []) := by simp [hl]; omega
      have hlpos : 0 < l.length := List.length_pos.mpr hl
      rw [saveLoop]
      simp only [hcond, dite_false, dif_neg, not_false_iff, hf i, if_false,
        Bool.false_eq_true]
      have hdec : (l.drop b).length < n := by
        subst hn; simp [List.length_drop]; omega
      rw [ih (l.drop b).length hdec (l.drop b) _ _ _ _ rfl]
      rw [← putMulti_append, List.take_append_drop, chunks_cons b hb l hl]
      simp [List.length_take, List.length_drop, List.reverse_cons,
        List.append_assoc]
      omega

lemma saveLoop_fail (fails : Nat → Bool) (b : Nat) (hb : 0 < b) :
    ∀ (j : Nat) (l : List FeedItem) (s : Store) (i acc : Nat)
      (tr : List (List FeedItem)),
      (∀ k, k < j → fails (i + k * b) = false) → fails (i + j * b) = true →
      j * b < l.length →
      saveLoop fails b s l i acc tr =
        (acc + j * b, s.putMulti (l.take (j * b)),
          tr.reverse ++ chunks b (l.take (j * b)), some (i + j * b)) := by
  intro j
  induction j with
  | zero =>
    intro l s i acc tr _ hfail hlen
    have hl : l ≠ [] := by
      intro h; subst h; simp at hlen
    have hcond : ¬(b = 0 ∨ l = []) := by simp [hl]; omega
    simp only [Nat.zero_mul, Nat.add_zero] at hfail ⊢
    rw [saveLoop]
    simp [hcond, hfail, chunks_nil, Store.putMulti]
  | succ m ih =>
    intro l s i acc tr hok hfail hlen
    have hl : l ≠ [] := by
      intro h; subst h; simp at hlen
    have hcond : ¬(b = 0 ∨ l = []) := by simp [hl]; omega
    have hi : fails i = false := by
      have := hok 0 (Nat.succ_pos m)
      simpa using this
    rw [saveLoop]
    simp only [hcond, dite_false, dif_neg, not_false_iff, hi, if_false,
      Bool.false_eq_true]
    have hok2 : ∀ k, k < m → fails (i + b + k * b) = false := by
      intro k hk
      have := hok (k + 1) (by omega)
      have harg : i + (k + 1) * b = i + b + k * b := by ring
      rwa [harg] at this
    have hfail2 : fails (i + b + m * b) = true := by
      have harg : i + (m + 1) * b = i + b + m * b := by ring
      rwa [harg] at hfail
    have hlen2 : m * b < (l.drop b).length := by
      simp [List.length_drop]
      have : (m + 1) * b = b + m * b := by ring
      omega
    rw [ih (l.drop b) _ (i + b) _ _ hok2 hfail2 hlen2]
    have htk : (l.take b).length = b := by
      simp [List.length_take]
      have : (m + 1) * b = b + m * b := by ring
      have hmb : 0 ≤ m * b := Nat.zero_le _
      omega
    have hsplit : (m + 1) * b = b + m * b := by ring
    have hstore : l.take ((m + 1) * b) = l.take b ++ (l.drop b).take (m * b) := by
      rw [hsplit, List.take_add]
    have htr : chunks b (l.take ((m + 1) * b)) =
        l.take b :: chunks b ((l.drop b).take (m * b)) :=
      chunks_take_succ b hb m l (Nat.le_of_lt hlen)
    rw [htr, hstore, putMulti_append]
    simp only [htk, List.reverse_cons, List.append_assoc,
      List.cons_append, List.nil_append, Prod.mk.injEq, Option.some.injEq]
    refine ⟨by omega, trivial, trivial, by omega⟩

/-- Claim C1, counterexample: the store holds
`Y = (title T, link https://a/2, description D, author A)` and the single
saved item `Xp = (title T, link https://a/3, description D, author A)` is a
duplicate of `Y` under `IsDuplicate` (equal (title, author), equal content
hash), yet `BatchSaveToDatastoreWithDeduplication` reports one new item,
performs a put for `Xp` (non-empty put trace) and extends the store: the
duplicate probe only consults the entity stored under the incoming item's
own link, and nothing is stored under `https://a/3`. -/
theorem claim_C1_counterexample :
    (FeedItem.IsDuplicate ⟨"T", "https://a/3", "D", "A", ""⟩
        ⟨"T", "https://a/2", "D", "A", ""⟩ = true) ∧
    (BatchSaveToDatastoreWithDeduplication (fun _ => false)
        [⟨"T", "https://a/2", "D", "A", ""⟩]
        [⟨"T", "https://a/3", "D", "A", ""⟩] 1000 =
      (1,
        [⟨"T", "https://a/2", "D", "A", ""⟩, ⟨"T", "https://a/3", "D", "A", ""⟩],
        [[⟨"T", "https://a/3", "D", "A", ""⟩]], none)) := by
  constructor
  · decide
  · unfold BatchSaveToDatastoreWithDeduplication
    rw [saveLoop]
    simp [CheckForDuplicates, Store.getByLink, HashMapGo.insert, HashMapGo.lookup,
      FeedItem.GenerateContentHash, FeedItem.IsDuplicate]
    rw [saveLoop]
    simp [Store.putMulti, Store.putItem]

/-- Claim C1 (amended): deduplication fires exactly when the store already
holds an entity under the incoming item's own link.  If
`getByLink store X.Link = some Y` and `IsDuplicate X Y`, then saving `[X]`
reports zero new items, performs no put, and leaves the store unchanged.
(The original claim also covered a stored duplicate under a different link;
the counterexample shows such an item is written.) -/
theorem claim_C1_theorem (fails : Nat → Bool) (s : Store) (X Y : FeedItem)
    (b : Nat) (hY : s.getByLink X.Link = some Y)
    (hdup : X.IsDuplicate Y = true) :
    BatchSaveToDatastoreWithDeduplication fails s [X] b = (0, s, [], none) := by
  unfold BatchSaveToDatastoreWithDeduplication CheckForDuplicates
  simp only [List.foldl_cons, List.foldl_nil, hY]
  have hlook : HashMapGo.lookup (HashMapGo.insert [] X.GenerateContentHash Y)
      X.GenerateContentHash = some Y := by
    simp [HashMapGo.insert, HashMapGo.lookup]
  simp only [List.filter_cons, List.filter_nil, hlook, hdup, Bool.not_true,
    Bool.false_eq_true, if_false]
  rw [saveLoop]
  simp

/-- Witness for claim C1: a concrete store holding one item and a second
item with the same link; the save is a no-op reporting zero new items. -/
theorem claim_C1_witness :
    BatchSaveToDatastoreWithDeduplication (fun _ => false)
        [⟨"T", "https://a/2", "D", "A", ""⟩]
        [⟨"T2", "https://a/2", "D2", "A2", ""⟩] 50 =
      (0, [⟨"T", "https://a/2", "D", "A", ""⟩], [], none) :=
  claim_C1_theorem (fun _ => false) [⟨"T", "https://a/2", "D", "A", ""⟩]
    ⟨"T2", "https://a/2", "D2", "A2", ""⟩ ⟨"T", "https://a/2", "D", "A", ""⟩
    50 (by decide) (by decide)

/-- Claim C2: for every survivor list and positive batch size `b`, the batch
loop partitions the survivors into contiguous batches of size `b` (the last
possibly shorter) and issues one batched put per batch in order (the put
trace is exactly that partition); on full success it returns the total
survivor count with no error; when the `j`-th put fails it performs exactly
the `j` earlier puts (no rollback: the store reflects them), and returns the
count of items written by them (`j * b`) together with the error. -/
theorem claim_C2_batch_writer (fails : Nat → Bool) (b : Nat) (hb : 0 < b)
    (l : List FeedItem) (s : Store) :
    ((chunks b l).flatten = l ∧
      (∀ c ∈ chunks b l, c ≠ [] ∧ c.length ≤ b) ∧
      (∀ c ∈ (chunks b l).dropLast, c.length = b)) ∧
    ((∀ k, fails k = false) →
      saveLoop fails b s l 0 0 [] = (l.length, s.putMulti l, chunks b l, none)) ∧
    (∀ j, (∀ k, k < j → fails (k * b) = false) → fails (j * b) = true →
      j * b < l.length →
      saveLoop fails b s l 0 0 [] =
        (j * b, s.putMulti (l.take (j * b)), (chunks b l).take j,
          some (j * b))) := by
  refine ⟨⟨chunks_flatten b hb l, chunks_mem_size b hb l,
    chunks_dropLast_size b hb l⟩, ?_, ?_⟩
  · intro hf
    have h := saveLoop_ok fails b hb hf l.length l s 0 0 [] rfl
    simpa using h
  · intro j hok hfail hlen
    have hok0 : ∀ k, k < j → fails (0 + k * b) = false := by
      intro k hk; simpa using hok k hk
    have hfail0 : fails (0 + j * b) = true := by simpa using hfail
    have h := saveLoop_fail fails b hb j l s 0 0 [] hok0 hfail0 hlen
    rw [chunks_take b hb j l (Nat.le_of_lt hlen)]
    simpa using h

/-- Witness for claim C2: three items saved with batch size 2 where the put
for the batch starting at index 2 fails: the first batch of two is written,
the count is 2 and the error names index 2. -/
theorem claim_C2_witness :
    saveLoop (fun i => decide (2 ≤ i)) 2 []
        [⟨"a", "https://a/1", "", "", ""⟩, ⟨"b", "https://a/2", "", "", ""⟩,
          ⟨"c", "https://a/3", "", "", ""⟩] 0 0 [] =
      (2,
        [⟨"a", "https://a/1", "", "", ""⟩, ⟨"b", "https://a/2", "", "", ""⟩],
        [[⟨"a", "https://a/1", "", "", ""⟩, ⟨"b", "https://a/2", "", "", ""⟩]],
        some 2) := by
  have h := (claim_C2_batch_writer (fun i => decide (2 ≤ i)) 2 (by norm_num)
    [⟨"a", "https://a/1", "", "", ""⟩, ⟨"b", "https://a/2", "", "", ""⟩,
      ⟨"c", "https://a/3", "", "", ""⟩] []).2.2 1 (by decide) (by decide)
    (by decide)
  rw [h]
  rw [chunks_cons 2 (by norm_num) _ (by decide)]
  simp only [List.take_succ_cons, List.take_zero]
  simp [Store.putMulti, Store.putItem]

/-- Claim C3: with no caller-supplied positive batch size the adaptive batch
size is 50 for `n ≤ 10`, 200 for `10 < n ≤ 50`, 500 for `50 < n ≤ 200`,
1000 for `200 < n ≤ 1000` and 2000 for `n > 1000`; a caller-supplied
positive batch size `b` is used unchanged regardless of `n`. -/
theorem claim_C3_adaptive_batch (n b : Int) :
    (getBatchSizeFromConfig [] = 0 ∧
      (b ≤ 0 → getBatchSizeFromConfig [b] = 0)) ∧
    (n ≤ 10 → calculateAdaptiveBatchSize n 0 = 50) ∧
    (10 < n → n ≤ 50 → calculateAdaptiveBatchSize n 0 = 200) ∧
    (50 < n → n ≤ 200 → calculateAdaptiveBatchSize n 0 = 500) ∧
    (200 < n → n ≤ 1000 → calculateAdaptiveBatchSize n 0 = 1000) ∧
    (1000 < n → calculateAdaptiveBatchSize n 0 = 2000) ∧
    (0 < b → calculateAdaptiveBatchSize n (getBatchSizeFromConfig [b]) = b) := by
  refine ⟨⟨rfl, fun hb => ?_⟩, fun h1 => ?_, fun h1 h2 => ?_, fun h1 h2 => ?_,
    fun h1 h2 => ?_, fun h1 => ?_, fun h1 => ?_⟩ <;>
    simp only [calculateAdaptiveBatchSize, getBatchSizeFromConfig] <;>
    split_ifs <;> omega

/-- Witness for claim C3: each band of the adaptive map at a sample point,
plus a caller-supplied batch size of 7 overriding an item count of 1500. -/
theorem claim_C3_witness :
    calculateAdaptiveBatchSize 7 0 = 50 ∧
    calculateAdaptiveBatchSize 30 0 = 200 ∧
    calculateAdaptiveBatchSize 120 0 = 500 ∧
    calculateAdaptiveBatchSize 600 0 = 1000 ∧
    calculateAdaptiveBatchSize 1500 0 = 2000 ∧
    calculateAdaptiveBatchSize 1500 (getBatchSizeFromConfig [7]) = 7 :=
  ⟨(claim_C3_adaptive_batch 7 1).2.1 (by norm_num),
    (claim_C3_adaptive_batch 30 1).2.2.1 (by norm_num) (by norm_num),
    (claim_C3_adaptive_batch 120 1).2.2.2.1 (by norm_num) (by norm_num),
    (claim_C3_adaptive_batch 600 1).2.2.2.2.1 (by norm_num) (by norm_num),
    (claim_C3_adaptive_batch 1500 1).2.2.2.2.2.1 (by norm_num),
    (claim_C3_adaptive_batch 1500 7).2.2.2.2.2.2 (by norm_num)⟩

/-! ### Cache: adaptive TTL (cache manager) -/

/-- Nanoseconds per minute (`time.Minute`). -/
def nsPerMinute : Int := 60 * 1000000000

/-- Nanoseconds per hour (`time.Hour`). -/
def nsPerHour : Int := 60 * nsPerMinute

/-- Nanoseconds per day (`24 * time.Hour`). -/
def nsPerDay : Int := 24 * nsPerHour

/-- The TTL fields of the cache manager (durations in nanoseconds). -/
structure CacheConfig where
  defaultFeedTTL : Int
  highFreqFeedTTL : Int
  lowFreqFeedTTL : Int

/-- `analyzeUpdateFrequency` (cache package): parse each item's `pub_date`
(the whole RFC 3339 / RFC 1123 / fallback-format chain of `time.Parse`
attempts is modelled by the parameter `parse`), keep the parse-able dates,
default to 24 h when fewer than two remain, sort newest-first, and average
the positive inter-item gaps strictly under 7 days; 24 h when no gap
qualifies.  `Int.tdiv` is Go's truncating `time.Duration` division. -/
def analyzeUpdateFrequency (parse : String → Option Int)
    (items : List FeedItem) : Int :=
  if items.length < 2 then 24 * nsPerHour
  else
    let validTimes := items.filterMap (fun it => parse it.PubDate)
    if validTimes.length < 2 then 24 * nsPerHour
    else
      let sorted := validTimes.mergeSort (fun a b => decide (b ≤ a))
      let gaps := List.zipWith (fun a b => a - b) sorted sorted.tail
      let good := gaps.filter (fun d => decide (0 < d) && decide (d < 7 * nsPerDay))
      if good.length = 0 then 24 * nsPerHour
      else Int.tdiv good.sum good.length

/-- `calculateAdaptiveTTL` (cache package): `default_feed_ttl` for an empty
list; `high_freq_ttl` when the observed cadence is ≤ 1 h; `low_freq_ttl`
when it is ≥ 24 h; otherwise `default_feed_ttl` doubled for > 100 items,
halved for < 10 items, unchanged in between. -/
def calculateAdaptiveTTL (cfg : CacheConfig) (parse : String → Option Int)
    (items : List FeedItem) : Int :=
  if items.length = 0 then cfg.defaultFeedTTL
  else
    let updateFrequency := analyzeUpdateFrequency parse items
    let feedSize := items.length
    if updateFrequency ≤ nsPerHour then cfg.highFreqFeedTTL
    else if 24 * nsPerHour ≤ updateFrequency then cfg.lowFreqFeedTTL
    else if 100 < feedSize then cfg.defaultFeedTTL * 2
    else if feedSize < 10 then Int.tdiv cfg.defaultFeedTTL 2
    else cfg.defaultFeedTTL

/-- Modelled from the claim wording of C4 (spec §4.C): the observed update
cadence — the mean of the positive inter-item gaps strictly under 7 days
between consecutive parse-able pub_dates sorted newest-first, and 24 h when
fewer than two dates parse or no gap qualifies. -/
def specCadence (parse : String → Option Int) (items : List FeedItem) : Int :=
  let dates := items.filterMap (fun it => parse it.PubDate)
  if dates.length < 2 then 24 * nsPerHour
  else
    let sorted := dates.mergeSort (fun a b => decide (b ≤ a))
    let gaps := (List.zipWith (fun a b => a - b) sorted sorted.tail).filter
      (fun d => decide (0 < d) && decide (d < 7 * nsPerDay))
    if gaps = [] then 24 * nsPerHour
    else Int.tdiv gaps.sum gaps.length

/-- Modelled from the claim wording of C4 (spec §4.C): the TTL selection
around `specCadence`. -/
def specAdaptiveTTL (cfg : CacheConfig) (parse : String → Option Int)
    (items : List FeedItem) : Int :=
  if items = [] then cfg.defaultFeedTTL
  else
    let cadence := specCadence parse items
    if cadence ≤ nsPerHour then cfg.highFreqFeedTTL
    else if 24 * nsPerHour ≤ cadence then cfg.lowFreqFeedTTL
    else if 100 < items.length then cfg.defaultFeedTTL * 2
    else if items.length < 10 then Int.tdiv cfg.defaultFeedTTL 2
    else cfg.defaultFeedTTL

/-- Claim C4: the cache TTL chosen by the code (`calculateAdaptiveTTL` over
`analyzeUpdateFrequency`) agrees, for every parse function, configuration
and item list, with the TTL described by the claim (`specAdaptiveTTL` over
`specCadence`): default TTL for an empty list; cadence = mean of positive
gaps < 7 days between consecutive parse-able dates sorted newest-first
(24 h when fewer than two dates parse or no gap qualifies); high-frequency
TTL for cadence ≤ 1 h, low-frequency TTL for cadence ≥ 24 h, otherwise
default × 2 for > 100 items, default / 2 for < 10 items, default otherwise. -/
theorem claim_C4_adaptive_ttl (cfg : CacheConfig)
    (parse : String → Option Int) (items : List FeedItem) :
    calculateAdaptiveTTL cfg parse items = specAdaptiveTTL cfg parse items := by
  have hc : analyzeUpdateFrequency parse items = specCadence parse items := by
    unfold analyzeUpdateFrequency specCadence
    by_cases h2 : items.length < 2
    · have hle : (items.filterMap (fun it => parse it.PubDate)).length ≤
          items.length := List.length_filterMap_le _ _
      have hlt : (items.filterMap (fun it => parse it.PubDate)).length < 2 := by
        omega
      simp [h2, hlt]
    · simp only [h2, if_false]
      by_cases hv : (items.filterMap (fun it => parse it.PubDate)).length < 2
      · simp [hv]
      · simp only [hv, if_false]
        have hiff :
            ((List.zipWith (fun a b => a - b)
                ((items.filterMap (fun it => parse it.PubDate)).mergeSort
                  (fun a b => decide (b ≤ a)))
                (((items.filterMap (fun it => parse it.PubDate)).mergeSort
                  (fun a b => decide (b ≤ a))).tail)).filter
              (fun d => decide (0 < d) && decide (d < 7 * nsPerDay))).length = 0 ↔
            ((List.zipWith (fun a b => a - b)
                ((items.filterMap (fun it => parse it.PubDate)).mergeSort
                  (fun a b => decide (b ≤ a)))
                (((items.filterMap (fun it => parse it.PubDate)).mergeSort
                  (fun a b => decide (b ≤ a))).tail)).filter
              (fun d => decide (0 < d) && decide (d < 7 * nsPerDay))) = [] := by
          exact List.length_eq_zero
        split_ifs with hg1 hg2 hg2
        · rfl
        · exact absurd (hiff.mp hg1) hg2
        · exact absurd (hiff.mpr hg2) hg1
        · rfl
  unfold calculateAdaptiveTTL specAdaptiveTTL
  rw [hc]
  by_cases h0 : items = []
  · simp [h0]
  · have hlen : ¬(items.length = 0) := by
      simpa [List.length_eq_zero] using h0
    simp [h0, hlen]

/-- Witness for claim C4: a two-item feed whose dates are 2 hours apart and
whose configuration distinguishes all TTLs; both sides evaluate alike. -/
theorem claim_C4_witness :
    calculateAdaptiveTTL ⟨15 * nsPerMinute, 5 * nsPerMinute, 60 * nsPerMinute⟩
        (fun s => if s = "d0" then some (2 * nsPerHour) else
          if s = "d1" then some 0 else none)
        [⟨"a", "https://a/1", "", "", "d0"⟩, ⟨"b", "https://a/2", "", "", "d1"⟩] =
      specAdaptiveTTL ⟨15 * nsPerMinute, 5 * nsPerMinute, 60 * nsPerMinute⟩
        (fun s => if s = "d0" then some (2 * nsPerHour) else
          if s = "d1" then some 0 else none)
        [⟨"a", "https://a/1", "", "", "d0"⟩, ⟨"b", "https://a/2", "", "", "d1"⟩] :=
  claim_C4_adaptive_ttl _ _ _

/-- A concrete parse table for the C5 scenario: five pub_date strings that
parse to times 30 minutes apart (newest first). -/
def c5parse : String → Option Int := fun s =>
  if s = "p0" then some (120 * nsPerMinute)
  else if s = "p1" then some (90 * nsPerMinute)
  else if s = "p2" then some (60 * nsPerMinute)
  else if s = "p3" then some (30 * nsPerMinute)
  else if s = "p4" then some 0
  else none

/-- The five items of the C5 scenario. -/
def c5items : List FeedItem :=
  [⟨"a", "https://a/1", "", "", "p0"⟩, ⟨"b", "https://a/2", "", "", "p1"⟩,
    ⟨"c", "https://a/3", "", "", "p2"⟩, ⟨"d", "https://a/4", "", "", "p3"⟩,
    ⟨"e", "https://a/5", "", "", "p4"⟩]

/-- Claim C5, counterexample: five items with pub_dates exactly 30 minutes
apart under `default = 15 m, high = 5 m, low = 60 m` do NOT get TTL
15 m / 2 = 7 m 30 s: the observed cadence of 30 minutes falls in the
high-frequency band (cadence ≤ 1 h), which is selected before the
size-based adjustment is ever reached. -/
theorem claim_C5_counterexample :
    calculateAdaptiveTTL
        ⟨15 * nsPerMinute, 5 * nsPerMinute, 60 * nsPerMinute⟩ c5parse c5items ≠
      Int.tdiv (15 * nsPerMinute) 2 := by
  unfold calculateAdaptiveTTL analyzeUpdateFrequency c5items
  simp only [List.filterMap_cons, List.filterMap_nil, c5parse]
  norm_num
  rw [List.mergeSort_of_sorted (by decide)]
  decide

/-- Claim C5 (amended): for five items whose parsed pub_dates are exactly
30 minutes apart, with `default_feed_ttl = 15 m`, `high_freq_ttl = 5 m` and
`low_freq_ttl = 60 m`, the adaptive TTL equals `high_freq_ttl = 5 m`: the
observed cadence is 30 minutes, which is ≤ 1 h, so the high-frequency branch
fires (the original claim expected 15 m / 2 = 7 m 30 s from the small-feed
adjustment, but that branch is only reached for cadences strictly between
1 h and 24 h). -/
theorem claim_C5_theorem (parse : String → Option Int)
    (i0 i1 i2 i3 i4 : FeedItem) (t0 : Int)
    (h0 : parse i0.PubDate = some (t0 + 4 * (30 * nsPerMinute)))
    (h1 : parse i1.PubDate = some (t0 + 3 * (30 * nsPerMinute)))
    (h2 : parse i2.PubDate = some (t0 + 2 * (30 * nsPerMinute)))
    (h3 : parse i3.PubDate = some (t0 + 30 * nsPerMinute))
    (h4 : parse i4.PubDate = some t0) :
    calculateAdaptiveTTL ⟨15 * nsPerMinute, 5 * nsPerMinute, 60 * nsPerMinute⟩
      parse [i0, i1, i2, i3, i4] = 5 * nsPerMinute := by
  have hg : (30 : Int) * nsPerMinute = 1800000000000 := by norm_num [nsPerMinute]
  have hsorted : List.Pairwise (fun a b => (decide (b ≤ a)) = true)
      [t0 + 4 * (30 * nsPerMinute), t0 + 3 * (30 * nsPerMinute),
        t0 + 2 * (30 * nsPerMinute), t0 + 30 * nsPerMinute, t0] := by
    simp only [List.pairwise_cons, List.mem_cons, List.not_mem_nil,
      decide_eq_true_eq]
    norm_num [nsPerMinute]
    all_goals omega
  unfold calculateAdaptiveTTL analyzeUpdateFrequency
  simp only [List.filterMap_cons, h0, h1, h2, h3, h4, List.filterMap_nil]
  rw [List.mergeSort_of_sorted hsorted]
  have hz : List.zipWith (fun a b => a - b)
      [t0 + 4 * (30 * nsPerMinute), t0 + 3 * (30 * nsPerMinute),
        t0 + 2 * (30 * nsPerMinute), t0 + 30 * nsPerMinute, t0]
      (List.tail [t0 + 4 * (30 * nsPerMinute), t0 + 3 * (30 * nsPerMinute),
        t0 + 2 * (30 * nsPerMinute), t0 + 30 * nsPerMinute, t0]) =
      [30 * nsPerMinute, 30 * nsPerMinute, 30 * nsPerMinute,
        30 * nsPerMinute] := by
    simp only [List.tail_cons, List.zipWith_cons_cons, List.zipWith_nil_right]
    norm_num [nsPerMinute]
    all_goals omega
  rw [hz]
  norm_num [nsPerMinute, nsPerHour, nsPerDay]
  intro hcontra
  have htd : Int.tdiv 7200000000000 4 = 1800000000000 := by decide
  rw [htd] at hcontra
  norm_num at hcontra

/-- Witness for claim C5: the concrete five-item scenario, instantiating the
amended theorem at the parse table `c5parse` with `t0 = 0`. -/
theorem claim_C5_witness :
    calculateAdaptiveTTL
        ⟨15 * nsPerMinute, 5 * nsPerMinute, 60 * nsPerMinute⟩ c5parse c5items =
      5 * nsPerMinute := by
  have h := claim_C5_theorem c5parse
    ⟨"a", "https://a/1", "", "", "p0"⟩ ⟨"b", "https://a/2", "", "", "p1"⟩
    ⟨"c", "https://a/3", "", "", "p2"⟩ ⟨"d", "https://a/4", "", "", "p3"⟩
    ⟨"e", "https://a/5", "", "", "p4"⟩ 0
    (by decide) (by decide) (by decide) (by decide) (by decide)
  simpa [c5items] using h

/-! ### Async processor: submission with backpressure, job status -/

/-- `types.AsyncJobStatus`: the status record of an async job.  Timestamps
are integer nanoseconds. -/
structure AsyncJobStatus where
  JobID : String
  URL : String
  Status : String
  CreatedAt : Int
  StartedAt : Option Int
  CompletedAt : Option Int
  Error : String
  ItemsCount : Nat
  DurationMs : Int
deriving Repr, DecidableEq

/-- The `map[string]*types.AsyncJobStatus` job-status map, as an association
list with insert-or-overwrite semantics. -/
def StatusMap := List (String × AsyncJobStatus)

/-- Go map assignment `m[k] = v` on the status map. -/
def StatusMap.insert (m : StatusMap) (k : String) (v : AsyncJobStatus) :
    StatusMap :=
  if (List.any m (fun p => p.1 == k)) then
    List.map (fun p => if p.1 == k then (k, v) else p) m
  else
    List.append m [(k, v)]

/-- Go map lookup `m[k]` on the status map. -/
def StatusMap.lookup (m : StatusMap) (k : String) : Option AsyncJobStatus :=
  (List.find? (fun p => p.1 == k) m).map Prod.snd

lemma StatusMap.lookup_insert (m : StatusMap) (k : String)
    (v : AsyncJobStatus) : (m.insert k v).lookup k = some v := by
  unfold StatusMap.insert StatusMap.lookup
  by_cases h : List.any m (fun p => p.1 == k)
  · simp only [h, if_true]
    induction m with
    | nil => simp at h
    | cons a t ih =>
      cases ha : (a.1 == k) with
      | true => simp [List.map_cons, ha, List.find?]
      | false =>
        have ht : List.any t (fun p => p.1 == k) = true := by
          simp only [List.any_cons, ha, Bool.false_or] at h
          exact h
        simp only [List.map_cons, ha, Bool.false_eq_true, if_false, List.find?]
        exact ih ht
  · simp only [h, if_false]
    induction m with
    | nil => simp [List.find?]
    | cons a t ih =>
      simp only [List.any_cons, Bool.or_eq_true, not_or] at h
      have hk : (a.1 == k) = false := by
        cases hkk : (a.1 == k)
        · rfl
        · exact absurd hkk h.1
      show (List.find? (fun p => p.1 == k)
          (a :: List.append t [(k, v)])).map Prod.snd = some v
      simp only [List.find?, hk]
      exact ih (by simp [h.2])

/-- The submission-relevant state of `AsyncProcessor` (handlers async
processor): the buffered job channel (as the list of enqueued job ids), its
capacity, the backpressure configuration and the job-status map.  float64
load arithmetic is modelled exactly over `ℚ`. -/
structure ProcState where
  jobs : List String
  queueSize : Nat
  backpressureEnabled : Bool
  rejectThreshold : ℚ
  waitTimeoutStr : String
  jobStatus : StatusMap

/-- The queue load `float64(len(ap.jobs)) / float64(ap.queueSize)`. -/
def ProcState.load (st : ProcState) : ℚ :=
  (st.jobs.length : ℚ) / (st.queueSize : ℚ)

/-- `fmt.Sprintf("%.2f", q)` for the nonnegative values at issue: the value
rounded to two decimals (half up; Go rounds half to even, and the two agree
away from ties, in particular at every exact value used here). -/
def fmtF2 (q : ℚ) : String :=
  let c : Int := ⌊q * 100 + 1 / 2⌋
  toString (c / 100) ++ "." ++
    (if c % 100 < 10 then "0" else "") ++ toString (c % 100)

/-- `SubmitJob` (handlers async processor): mint
`job_<nanosecond-timestamp>_<requestID>`, insert a `pending` status entry,
then, with backpressure enabled and `load ≥ rejectThreshold`, fail fast with
the backpressure error naming the load percentage without enqueuing;
otherwise enqueue when the bounded channel has room, or fail with the
timeout error when it is full (the `wait_timeout` expiry on a full channel).
Returns the error-or-job-id and the successor state. -/
def SubmitJob (st : ProcState) (url requestID : String) (nowNano : Int) :
    Except String String × ProcState :=
  let jobID := "job_" ++ toString nowNano ++ "_" ++ requestID
  let pending : AsyncJobStatus :=
    ⟨jobID, url, "pending", nowNano, none, none, "", 0, 0⟩
  let st1 : ProcState := { st with jobStatus := st.jobStatus.insert jobID pending }
  if st.backpressureEnabled ∧ st.rejectThreshold ≤ st.load then
    (Except.error ("async processor queue under backpressure (load: " ++
      fmtF2 (st.load * 100) ++ "%)"), st1)
  else if st.jobs.length < st.queueSize then
    (Except.ok jobID, { st1 with jobs := st.jobs ++ [jobID] })
  else
    (Except.error ("async processor queue timeout after " ++ st.waitTimeoutStr),
      st1)

/-- `GetJobStatus` (handlers async processor): map lookup plus the
exists flag. -/
def GetJobStatus (st : ProcState) (jobID : String) :
    Option AsyncJobStatus × Bool :=
  ((st.jobStatus.lookup jobID), (st.jobStatus.lookup jobID).isSome)

/-- Claim C6: when backpressure is enabled and
`len(jobs)/queue_capacity ≥ reject_threshold`, `SubmitJob` returns the
backpressure error whose message names the load percentage, does not
enqueue the job (the queue is unchanged), and leaves a `pending` status
entry for the freshly minted job id in the status map. -/
theorem claim_C6_backpressure (st : ProcState) (url requestID : String)
    (now : Int) (hbp : st.backpressureEnabled = true)
    (hload : st.rejectThreshold ≤ st.load) :
    (SubmitJob st url requestID now).1 =
      Except.error ("async processor queue under backpressure (load: " ++
        fmtF2 (st.load * 100) ++ "%)") ∧
    (SubmitJob st url requestID now).2.jobs = st.jobs ∧
    (SubmitJob st url requestID now).2.jobStatus.lookup
        ("job_" ++ toString now ++ "_" ++ requestID) =
      some ⟨"job_" ++ toString now ++ "_" ++ requestID, url, "pending", now,
        none, none, "", 0, 0⟩ := by
  unfold SubmitJob
  have hcond : (st.backpressureEnabled = true) ∧ st.rejectThreshold ≤ st.load :=
    ⟨hbp, hload⟩
  rw [if_pos hcond]
  exact ⟨rfl, rfl, StatusMap.lookup_insert _ _ _⟩

/-- Witness for claim C6: capacity 10, threshold 0.8, 8 jobs enqueued; the
next submission is rejected with load "80.00%", the queue still holds the
same 8 jobs, and the status map holds a pending entry for the new job id. -/
theorem claim_C6_witness :
    (SubmitJob ⟨["j1", "j2", "j3", "j4", "j5", "j6", "j7", "j8"], 10, true,
        (4 : ℚ) / 5, "30s", []⟩ "https://feeds.example.com/rss" "r1" 171).1 =
      Except.error
        "async processor queue under backpressure (load: 80.00%)" ∧
    (SubmitJob ⟨["j1", "j2", "j3", "j4", "j5", "j6", "j7", "j8"], 10, true,
        (4 : ℚ) / 5, "30s", []⟩ "https://feeds.example.com/rss" "r1" 171).2.jobs =
      ["j1", "j2", "j3", "j4", "j5", "j6", "j7", "j8"] ∧
    (SubmitJob ⟨["j1", "j2", "j3", "j4", "j5", "j6", "j7", "j8"], 10, true,
        (4 : ℚ) / 5, "30s", []⟩ "https://feeds.example.com/rss" "r1"
          171).2.jobStatus.lookup "job_171_r1" =
      some ⟨"job_171_r1", "https://feeds.example.com/rss", "pending", 171,
        none, none, "", 0, 0⟩ := by
  have h := claim_C6_backpressure
    ⟨["j1", "j2", "j3", "j4", "j5", "j6", "j7", "j8"], 10, true,
      (4 : ℚ) / 5, "30s", []⟩ "https://feeds.example.com/rss" "r1" 171
    rfl (by norm_num [ProcState.load])
  refine ⟨?_, h.2.1, ?_⟩
  · rw [h.1]
    congr 1
    norm_num [ProcState.load, fmtF2]
    decide
  · have := h.2.2
    simpa using this

/-- `updateJobStatus` (handlers async processor): when the job id is
present, overwrite Status, Error, ItemsCount and DurationMs with the
supplied values and set CompletedAt to the current time; no-op when
absent. -/
def updateJobStatus (m : StatusMap) (jobID status errorMsg : String)
    (itemsCount : Nat) (durationMs : Int) (now : Int) : StatusMap :=
  if (List.any m (fun p => p.1 == jobID)) then
    List.map (fun p =>
      if p.1 == jobID then
        (p.1, { p.2 with
                  Status := status
                  Error := errorMsg
                  ItemsCount := itemsCount
                  DurationMs := durationMs
                  CompletedAt := some now })
      else p) m
  else m

/-- The first action of `processJob` on dequeue: transition to
`processing` with empty error, zero items and zero duration. -/
def processJobStart (m : StatusMap) (jobID : String) (now : Int) : StatusMap :=
  updateJobStatus m jobID "processing" "" 0 0 now

lemma lookup_updateJobStatus (m : StatusMap) (jobID status errorMsg : String)
    (itemsCount : Nat) (durationMs now : Int) (ent : AsyncJobStatus)
    (hent : m.lookup jobID = some ent) :
    (updateJobStatus m jobID status errorMsg itemsCount durationMs now).lookup
        jobID =
      some { ent with
               Status := status
               Error := errorMsg
               ItemsCount := itemsCount
               DurationMs := durationMs
               CompletedAt := some now } := by
  unfold updateJobStatus
  induction m with
  | nil => simp [StatusMap.lookup] at hent
  | cons a t ih =>
    unfold StatusMap.lookup at hent
    cases ha : (a.1 == jobID) with
    | true =>
      have hent2 : a.2 = ent := by
        simp only [List.find?, ha] at hent
        simpa using hent
      have hany : List.any (a :: t) (fun p => p.1 == jobID) = true := by
        simp [List.any_cons, ha]
      unfold StatusMap.lookup
      simp only [hany, if_true, List.map_cons, ha, if_pos, List.find?]
      simp [hent2]
    | false =>
      have hent2 : StatusMap.lookup t jobID = some ent := by
        unfold StatusMap.lookup
        simp only [List.find?, ha] at hent
        exact hent
      have hanyt : List.any t (fun p => p.1 == jobID) = true := by
        unfold StatusMap.lookup at hent2
        cases hfind : List.find? (fun p => p.1 == jobID) t with
        | none => rw [hfind] at hent2; simp at hent2
        | some v =>
          have hv := List.find?_some hfind
          exact List.any_eq_true.mpr
            ⟨v, List.mem_of_find?_eq_some hfind, hv⟩
      have hany : List.any (a :: t) (fun p => p.1 == jobID) = true := by
        simp [List.any_cons, hanyt]
      have hrec := ih hent2
      simp only [hanyt, if_true] at hrec
      unfold StatusMap.lookup at hrec ⊢
      simp only [hany, if_true, List.map_cons, ha, Bool.false_eq_true,
        if_false, List.find?]
      exact hrec

/-- Claim C9: every call to `updateJobStatus` on an existing entry
overwrites Status, Error, ItemsCount and DurationMs with the supplied
values and sets CompletedAt to the current time — including the worker's
transition to "processing" on dequeue (`processJob` calls it with
("processing", "", 0, 0)); consequently a dequeued-but-unfinished job reads
back via `GetJobStatus` with Status = "processing" and a non-null
CompletedAt. -/
theorem claim_C9_status_update (st : ProcState) (m : StatusMap)
    (jobID status errorMsg : String) (itemsCount : Nat)
    (durationMs now : Int) (ent : AsyncJobStatus)
    (hent : m.lookup jobID = some ent)
    (hst : st.jobStatus = processJobStart m jobID now) :
    (updateJobStatus m jobID status errorMsg itemsCount durationMs now).lookup
        jobID =
      some { ent with
               Status := status
               Error := errorMsg
               ItemsCount := itemsCount
               DurationMs := durationMs
               CompletedAt := some now } ∧
    (processJobStart m jobID now).lookup jobID =
      some { ent with
               Status := "processing"
               Error := ""
               ItemsCount := 0
               DurationMs := 0
               CompletedAt := some now } ∧
    GetJobStatus st jobID =
      (some { ent with
                Status := "processing"
                Error := ""
                ItemsCount := 0
                DurationMs := 0
                CompletedAt := some now }, true) ∧
    ({ ent with
         Status := "processing"
         Error := ""
         ItemsCount := 0
         DurationMs := 0
         CompletedAt := some now } : AsyncJobStatus).CompletedAt ≠ none := by
  have h1 := lookup_updateJobStatus m jobID status errorMsg itemsCount
    durationMs now ent hent
  have h2 := lookup_updateJobStatus m jobID "processing" "" 0 0 now ent hent
  refine ⟨h1, h2, ?_, by simp⟩
  unfold GetJobStatus
  rw [hst]
  unfold processJobStart
  rw [h2]
  rfl

/-- Witness for claim C9: a one-entry status map; the dequeue transition
leaves the entry with Status = "processing" and CompletedAt set to the
dequeue time, visible through `GetJobStatus`. -/
theorem claim_C9_witness :
    (updateJobStatus
        [("job_1_r", ⟨"job_1_r", "https://u", "pending", 1, none, none, "",
          0, 0⟩)] "job_1_r" "processing" "" 0 0 5).lookup "job_1_r" =
      some ⟨"job_1_r", "https://u", "processing", 1, none, some 5, "", 0, 0⟩ ∧
    GetJobStatus ⟨[], 10, false, 0, "30s",
        processJobStart
          [("job_1_r", ⟨"job_1_r", "https://u", "pending", 1, none, none, "",
            0, 0⟩)] "job_1_r" 5⟩ "job_1_r" =
      (some ⟨"job_1_r", "https://u", "processing", 1, none, some 5, "", 0, 0⟩,
        true) := by
  have h := claim_C9_status_update
    ⟨[], 10, false, 0, "30s",
      processJobStart
        [("job_1_r", ⟨"job_1_r", "https://u", "pending", 1, none, none, "",
          0, 0⟩)] "job_1_r" 5⟩
    [("job_1_r", ⟨"job_1_r", "https://u", "pending", 1, none, none, "",
      0, 0⟩)]
    "job_1_r" "processing" "" 0 0 5
    ⟨"job_1_r", "https://u", "pending", 1, none, none, "", 0, 0⟩
    (by decide) rfl
  exact ⟨h.1, h.2.2.1⟩

/-! ### Paginated reader (`FetchFeedItemsWithFilter`) -/

/-- Lexicographic character-list comparison: the string order used by the
store for property comparisons (Go compares bytes; for the ASCII property
values at issue the orders agree). -/
def ltChars : List Char → List Char → Bool
  | [], [] => false
  | [], _ :: _ => true
  | _ :: _, [] => false
  | a :: as, b :: bs =>
    if a < b then true else if b < a then false else ltChars as bs

/-- Strict lexicographic order on strings (store comparison semantics). -/
def strLtB (s t : String) : Bool := ltChars s.data t.data

/-- Go `strings.Contains`, at character level. -/
def containsSub (s sub : String) : Bool := decide (sub.data <:+: s.data)

/-- `ItemsQueryParams` (pagination handler): `PaginationParams` plus
`FilterParams`, flattened. -/
structure ItemsQueryParams where
  Limit : Int
  Offset : Int
  Cursor : String
  Source : String
  Author : String
  DateFrom : String
  DateTo : String
  Keyword : String

/-- The conjunction of store-side filters composed by
`FetchFeedItemsWithFilter`: `source` as the prefix range
`link > source ∧ link < source ++ U+FFFD`; `author` equality;
`pub_date ≥ date_from` and `pub_date ≤ date_to` when the date strings parse
(`normDate` models Go's RFC 3339 parse-then-reformat round trip; on parse
failure the corresponding filter is silently skipped, as in the code). -/
def matchesStructFilter (normDate : String → Option String)
    (p : ItemsQueryParams) (it : FeedItem) : Bool :=
  (p.Source == "" ||
    (strLtB p.Source it.Link && strLtB it.Link (p.Source ++ "�"))) &&
  (p.Author == "" || it.Author == p.Author) &&
  (p.DateFrom == "" ||
    (match normDate p.DateFrom with
     | some d => !(strLtB it.PubDate d)
     | none => true)) &&
  (p.DateTo == "" ||
    (match normDate p.DateTo with
     | some d => !(strLtB d it.PubDate)
     | none => true))

/-- The store's `-pub_date` ordering of a result set. -/
def sortByPubDateDesc (l : List FeedItem) : List FeedItem :=
  l.mergeSort (fun a b => !(strLtB a.PubDate b.PubDate))

/-- Store-adapter `GetAll` over a composed query: conjunctive filters,
order by `pub_date` descending, then offset, then limit. -/
def runQuery (store : Store) (pred : FeedItem → Bool)
    (offset limit : Nat) : List FeedItem :=
  ((sortByPubDateDesc (List.filter pred store)).drop offset).take limit

/-- `PaginatedResult` (datastore handlers). -/
structure PaginatedResult where
  Items : List FeedItem
  TotalCount : Nat
  HasMore : Bool
  NextCursor : String
deriving Repr, DecidableEq

/-- The limit clamping of `FetchFeedItemsWithFilter`: default 100 when not
positive, capped at 1000. -/
def effLimit (p : ItemsQueryParams) : Nat :=
  (if p.Limit ≤ 0 then 100 else if p.Limit > 1000 then 1000 else p.Limit).toNat

/-- The offset actually applied to the query: `Offset` when positive
(`query.Offset` is only called for positive values). -/
def effOffset (p : ItemsQueryParams) : Nat :=
  if p.Offset > 0 then p.Offset.toNat else 0

/-- The keyword predicate: case-insensitive substring match against title or
description. -/
def keywordMatch (keyword : String) (it : FeedItem) : Bool :=
  containsSub (toLowerStr it.Title) (toLowerStr keyword) ||
    containsSub (toLowerStr it.Description) (toLowerStr keyword)

/-- `FetchFeedItemsWithFilter` (datastore handlers): run the filtered,
ordered, offset/limited store query; apply the keyword filter client-side
afterwards; compute `total_count` by a keys-only query carrying the same
structural filters but no keyword filter, no order, no limit and no offset;
derive `has_more` and `next_cursor` from the raw offset, the post-keyword
item count and the total. -/
def FetchFeedItemsWithFilter (normDate : String → Option String)
    (store : Store) (params : ItemsQueryParams) : PaginatedResult :=
  let items0 := runQuery store (matchesStructFilter normDate params)
    (effOffset params) (effLimit params)
  let items := if params.Keyword ≠ "" then
      List.filter (keywordMatch params.Keyword) items0
    else items0
  let totalCount := (List.filter (matchesStructFilter normDate params)
    store).length
  let hasMore := decide (params.Offset + (items.length : Int) < totalCount)
  let nextCursor :=
    if hasMore && !(List.isEmpty items0) then
      (if params.Offset + (items.length : Int) < totalCount then
        "offset:" ++ toString (params.Offset + (items.length : Int))
      else "")
    else ""
  ⟨items, totalCount, hasMore, nextCursor⟩

/-- Claim C8: for a non-empty keyword, every returned item matches the
keyword case-insensitively in title or description; the returned list is
exactly the keyword filter applied after the store query (limit, offset and
pub_date-descending order already applied); and `total_count` equals the
number of store items matching the structural filters (source, author,
date_from, date_to) before keyword filtering. -/
theorem claim_C8_keyword_filter (normDate : String → Option String)
    (store : Store) (params : ItemsQueryParams)
    (hkw : params.Keyword ≠ "") :
    (∀ it ∈ (FetchFeedItemsWithFilter normDate store params).Items,
      containsSub (toLowerStr it.Title) (toLowerStr params.Keyword) = true ∨
        containsSub (toLowerStr it.Description) (toLowerStr params.Keyword) =
          true) ∧
    (FetchFeedItemsWithFilter normDate store params).Items =
      List.filter (keywordMatch params.Keyword)
        (runQuery store (matchesStructFilter normDate params)
          (effOffset params) (effLimit params)) ∧
    (FetchFeedItemsWithFilter normDate store params).TotalCount =
      (List.filter (matchesStructFilter normDate params) store).length := by
  have hitems : (FetchFeedItemsWithFilter normDate store params).Items =
      List.filter (keywordMatch params.Keyword)
        (runQuery store (matchesStructFilter normDate params)
          (effOffset params) (effLimit params)) := by
    unfold FetchFeedItemsWithFilter
    simp [hkw]
  refine ⟨?_, hitems, rfl⟩
  intro it hit
  rw [hitems] at hit
  have hp := List.of_mem_filter hit
  unfold keywordMatch at hp
  rcases (Bool.or_eq_true _ _).mp hp with h | h
  · exact Or.inl h
  · exact Or.inr h

/-- Concrete store for the C8 witness: three structurally matching items in
descending pub_date order, two of which carry the keyword in their title. -/
def c8store : Store :=
  [⟨"Alpha one", "https://a/1", "d1", "A", "2024-03-03T00:00:00Z"⟩,
    ⟨"beta two", "https://a/2", "d2", "A", "2024-03-02T00:00:00Z"⟩,
    ⟨"ALPHA three", "https://a/3", "d3", "A", "2024-03-01T00:00:00Z"⟩]

/-- Concrete query for the C8 witness: limit 2, offset 0, keyword alpha. -/
def c8params : ItemsQueryParams := ⟨2, 0, "", "", "", "", "", "alpha"⟩

/-- Witness for claim C8: with limit 2 the store query returns the two
newest items, the keyword filter then keeps only the one whose title
contains "alpha" case-insensitively, and `total_count` is 3, the full
structural-match count before keyword filtering. -/
theorem claim_C8_witness :
    (FetchFeedItemsWithFilter (fun _ => none) c8store c8params).Items =
      [⟨"Alpha one", "https://a/1", "d1", "A", "2024-03-03T00:00:00Z"⟩] ∧
    (FetchFeedItemsWithFilter (fun _ => none) c8store c8params).TotalCount =
      3 := by
  have h := claim_C8_keyword_filter (fun _ => none) c8store c8params
    (by decide)
  constructor
  · rw [h.2.1]
    unfold runQuery sortByPubDateDesc
    have hs : List.Pairwise (fun a b => (!(strLtB a.PubDate b.PubDate)) = true)
        (List.filter (matchesStructFilter (fun _ => none) c8params) c8store) := by
      decide
    rw [List.mergeSort_of_sorted hs]
    decide
  · rw [h.2.2]
    decide

/-! ### Rate limiter client fingerprint (`getClientIdentifier`, main.go) -/

/-- An HTTP request as consumed by `getClientIdentifier`: peer address, the
three relevant headers (absent headers are the empty string, as in Go), and
the optional `session_id` cookie value. -/
structure HttpRequest where
  remoteAddr : String
  xForwardedFor : String
  xRealIP : String
  userAgent : String
  acceptLanguage : String
  sessionCookie : Option String

/-- Helper for `fieldsStr`: accumulate the current word (reversed) while
scanning. -/
def fieldsAux : List Char → List Char → List String
  | [], acc => if acc = [] then [] else [⟨acc.reverse⟩]
  | c :: cs, acc =>
    if c.isWhitespace then
      (if acc = [] then fieldsAux cs [] else ⟨acc.reverse⟩ :: fieldsAux cs [])
    else fieldsAux cs (c :: acc)

/-- Go `strings.Fields`: the whitespace-separated words of a string. -/
def fieldsStr (s : String) : List String := fieldsAux s.data []

/-- Helper for `splitOnComma`. -/
def splitCommaAux : List Char → List Char → List String
  | [], acc => [⟨acc.reverse⟩]
  | c :: cs, acc =>
    if c = ',' then ⟨acc.reverse⟩ :: splitCommaAux cs []
    else splitCommaAux cs (c :: acc)

/-- Go `strings.Split(s, ",")`: always returns at least one element. -/
def splitOnComma (s : String) : List String := splitCommaAux s.data []

/-- The resolved client IP: the trimmed first `X-Forwarded-For` entry when
that header is non-empty, else `X-Real-IP` when non-empty, else the peer
address. -/
def resolvedIP (r : HttpRequest) : String :=
  if r.xForwardedFor ≠ "" then
    trimStr ((splitOnComma r.xForwardedFor).headD "")
  else if r.xRealIP ≠ "" then r.xRealIP
  else r.remoteAddr

/-- The `ua:` component: omitted (empty list) for an empty User-Agent,
otherwise the first whitespace-separated token of the lowercased
User-Agent.  `strings.Fields(ua)[0]` panics in Go when the non-empty
User-Agent is all whitespace; the panic is modelled as `none`. -/
def uaComp (r : HttpRequest) : Option (List String) :=
  if r.userAgent = "" then some []
  else
    match fieldsStr (toLowerStr r.userAgent) with
    | [] => none
    | t :: _ => some ["ua:" ++ t]

/-- The `lang:` component: omitted for an empty Accept-Language, otherwise
the lowercased, trimmed first two characters.  `acceptLang[:2]` panics in
Go on a 1-byte header; the panic is modelled as `none` (characters stand in
for bytes, which agrees on ASCII). -/
def langComp (r : HttpRequest) : Option (List String) :=
  if r.acceptLanguage = "" then some []
  else if r.acceptLanguage.data.length < 2 then none
  else some ["lang:" ++ toLowerStr (trimStr ⟨r.acceptLanguage.data.take 2⟩)]

/-- The `sess:` component: the first 8 characters of the hex digest of the
`session_id` cookie value, when the cookie is present and non-empty.
`h` models the SHA-256 hex digest. -/
def sessComp (h : String → String) (r : HttpRequest) : List String :=
  match r.sessionCookie with
  | some v => if v = "" then [] else ["sess:" ++ (⟨(h v).data.take 8⟩ : String)]
  | none => []

/-- Go `strings.Join(l, "|")`. -/
def joinBar : List String → String
  | [] => ""
  | [x] => x
  | x :: y :: xs => x ++ "|" ++ joinBar (y :: xs)

/-- The identifier component list built by `getClientIdentifier`:
`ip:` always, then conditionally `ua:`, `lang:`, `sess:`; `none` models the
panic paths. -/
def identList (h : String → String) (r : HttpRequest) :
    Option (List String) := do
  let u ← uaComp r
  let l ← langComp r
  pure (("ip:" ++ resolvedIP r) :: (u ++ l ++ sessComp h r))

/-- `getClientIdentifier` (main.go): the first 16 characters of the hex
digest of the joined component list.  `h` models the SHA-256 hex digest
function. -/
def getClientIdentifier (h : String → String) (r : HttpRequest) :
    Option String :=
  (identList h r).map (fun comps => (⟨(h (joinBar comps)).data.take 16⟩ : String))

/-- Field (1) of the claim's tuple: the resolved client IP. -/
def ipField (r : HttpRequest) : String := resolvedIP r

/-- Field (2) of the claim's tuple: the first whitespace-separated token of
the lowercased User-Agent, when one exists. -/
def uaTokenField (r : HttpRequest) : Option String :=
  (fieldsStr (toLowerStr r.userAgent)).head?

/-- Field (3) of the claim's tuple: the first two characters of
Accept-Language, when the header is present. -/
def langPrefixField (r : HttpRequest) : Option String :=
  if r.acceptLanguage = "" then none
  else some (⟨r.acceptLanguage.data.take 2⟩ : String)

/-- Field (4) of the claim's tuple: the `session_id` cookie value. -/
def cookieField (r : HttpRequest) : Option String := r.sessionCookie

lemma strData_inj {s t : String} (hd : s.data = t.data) : s = t :=
  String.ext hd

lemma strAppend_left_cancel (a b c : String) (h : a ++ b = a ++ c) : b = c := by
  apply strData_inj
  have hd := congrArg String.data h
  rw [String.data_append, String.data_append] at hd
  exact List.append_cancel_left hd

lemma strAppend_right_cancel (a b c : String) (h : a ++ c = b ++ c) :
    a = b := by
  apply strData_inj
  have hd := congrArg String.data h
  rw [String.data_append, String.data_append] at hd
  exact List.append_cancel_right hd

lemma strAppend_ne_empty_left (p t : String) (hp : p ≠ "") : p ++ t ≠ "" := by
  intro h
  have hd := congrArg String.data h
  rw [String.data_append] at hd
  rcases List.append_eq_nil.mp hd with ⟨h1, _⟩
  exact hp (strData_inj h1)

lemma joinBar_cons (p : String) (L : List String) :
    joinBar (p :: L) = if L = [] then p else p ++ "|" ++ joinBar L := by
  cases L with
  | nil => simp [joinBar]
  | cons y ys => simp [joinBar]

lemma joinBar_cons_length (p : String) (L : List String) (hL : L ≠ []) :
    (joinBar (p :: L)).length = p.length + 1 + (joinBar L).length := by
  rw [joinBar_cons, if_neg hL, String.length_append, String.length_append]
  rfl

/-- Changing exactly one conditional component slot changes the joined
fingerprint input, provided the slot holds at most one component and
components are non-empty strings. -/
lemma joinBar_slot_inj :
    ∀ (P : List String) (m1 m2 S : List String),
      (m1 = [] ∨ ∃ x, m1 = [x] ∧ x ≠ "") →
      (m2 = [] ∨ ∃ x, m2 = [x] ∧ x ≠ "") →
      joinBar (P ++ m1 ++ S) = joinBar (P ++ m2 ++ S) → m1 = m2 := by
  intro P
  induction P with
  | nil =>
    intro m1 m2 S h1 h2 heq
    simp only [List.nil_append] at heq
    rcases h1 with h1 | ⟨x1, hx1, hx1ne⟩ <;>
      rcases h2 with h2 | ⟨x2, hx2, hx2ne⟩
    · rw [h1, h2]
    · subst h1; subst hx2
      simp only [List.nil_append, List.cons_append] at heq
      exfalso
      cases S with
      | nil =>
        simp [joinBar] at heq
        exact hx2ne heq.symm
      | cons y ys =>
        have hlen := congrArg String.length heq
        rw [joinBar_cons_length x2 (y :: ys) (by simp)] at hlen
        omega
    · subst h2; subst hx1
      simp only [List.nil_append, List.cons_append] at heq
      exfalso
      cases S with
      | nil =>
        simp [joinBar] at heq
        exact hx1ne heq
      | cons y ys =>
        have hlen := congrArg String.length heq
        rw [joinBar_cons_length x1 (y :: ys) (by simp)] at hlen
        omega
    · subst hx1; subst hx2
      simp only [List.cons_append, List.nil_append] at heq
      cases S with
      | nil =>
        simp [joinBar] at heq
        rw [heq]
      | cons y ys =>
        rw [joinBar_cons x1 (y :: ys), joinBar_cons x2 (y :: ys),
          if_neg (by simp), if_neg (by simp)] at heq
        have := strAppend_right_cancel _ _ _ heq
        have hx := strAppend_right_cancel x1 x2 "|" this
        rw [hx]
  | cons p P2 ih =>
    intro m1 m2 S h1 h2 heq
    simp only [List.cons_append] at heq
    rw [joinBar_cons p (P2 ++ m1 ++ S), joinBar_cons p (P2 ++ m2 ++ S)] at heq
    by_cases hT1 : P2 ++ m1 ++ S = [] <;> by_cases hT2 : P2 ++ m2 ++ S = []
    · rcases List.append_eq_nil.mp hT1 with ⟨h11, _⟩
      rcases List.append_eq_nil.mp h11 with ⟨_, h12⟩
      rcases List.append_eq_nil.mp hT2 with ⟨h21, _⟩
      rcases List.append_eq_nil.mp h21 with ⟨_, h22⟩
      rw [h12, h22]
    · rw [if_pos hT1, if_neg hT2] at heq
      exfalso
      have hlen := congrArg String.length heq
      rw [String.length_append, String.length_append] at hlen
      have : ("|" : String).length = 1 := rfl
      omega
    · rw [if_neg hT1, if_pos hT2] at heq
      exfalso
      have hlen := congrArg String.length heq
      rw [String.length_append, String.length_append] at hlen
      have : ("|" : String).length = 1 := rfl
      omega
    · rw [if_neg hT1, if_neg hT2] at heq
      have h3 := strAppend_left_cancel _ _ _ heq
      exact ih m1 m2 S h1 h2 h3

lemma uaComp_shape (r : HttpRequest) (u : List String)
    (hu : uaComp r = some u) : u = [] ∨ ∃ x, u = [x] ∧ x ≠ "" := by
  unfold uaComp at hu
  by_cases e : r.userAgent = ""
  · rw [if_pos e] at hu
    exact Or.inl (Option.some.inj hu).symm
  · rw [if_neg e] at hu
    cases hf : fieldsStr (toLowerStr r.userAgent) with
    | nil => rw [hf] at hu; exact absurd hu (by simp)
    | cons t ts =>
      rw [hf] at hu
      exact Or.inr ⟨"ua:" ++ t, (Option.some.inj hu).symm,
        strAppend_ne_empty_left "ua:" t (by decide)⟩

lemma langComp_shape (r : HttpRequest) (l : List String)
    (hl : langComp r = some l) : l = [] ∨ ∃ x, l = [x] ∧ x ≠ "" := by
  unfold langComp at hl
  by_cases e : r.acceptLanguage = ""
  · rw [if_pos e] at hl
    exact Or.inl (Option.some.inj hl).symm
  · rw [if_neg e] at hl
    by_cases e2 : r.acceptLanguage.data.length < 2
    · rw [if_pos e2] at hl; exact absurd hl (by simp)
    · rw [if_neg e2] at hl
      exact Or.inr ⟨_, (Option.some.inj hl).symm,
        strAppend_ne_empty_left "lang:" _ (by decide)⟩

lemma sessComp_shape (h : String → String) (r : HttpRequest) :
    sessComp h r = [] ∨ ∃ x, sessComp h r = [x] ∧ x ≠ "" := by
  unfold sessComp
  cases r.sessionCookie with
  | none => exact Or.inl rfl
  | some v =>
    by_cases e : v = ""
    · exact Or.inl (by simp [e])
    · refine Or.inr ⟨"sess:" ++ (⟨(h v).data.take 8⟩ : String), ?_,
        strAppend_ne_empty_left "sess:" _ (by decide)⟩
      simp [e]

lemma identList_parts (h : String → String) (r : HttpRequest)
    (L : List String) (hL : identList h r = some L) :
    ∃ u l, uaComp r = some u ∧ langComp r = some l ∧
      L = ("ip:" ++ resolvedIP r) :: (u ++ l ++ sessComp h r) := by
  unfold identList at hL
  cases hu : uaComp r with
  | none => rw [hu] at hL; exact absurd hL (by simp)
  | some u =>
    cases hl : langComp r with
    | none => rw [hu, hl] at hL; exact absurd hL (by simp)
    | some l =>
      rw [hu, hl] at hL
      exact ⟨u, l, rfl, rfl, (Option.some.inj hL).symm⟩

lemma sessComp_congr (h : String → String) (r1 r2 : HttpRequest)
    (hc : r1.sessionCookie = r2.sessionCookie) :
    sessComp h r1 = sessComp h r2 := by
  unfold sessComp
  rw [hc]

lemma uaComp_of_field (r1 r2 : HttpRequest) (u1 u2 : List String)
    (hf : uaTokenField r1 = uaTokenField r2)
    (h1 : uaComp r1 = some u1) (h2 : uaComp r2 = some u2) : u1 = u2 := by
  unfold uaComp at h1 h2
  unfold uaTokenField at hf
  by_cases e1 : r1.userAgent = "" <;> by_cases e2 : r2.userAgent = ""
  · rw [if_pos e1] at h1; rw [if_pos e2] at h2
    rw [← Option.some.inj h1, ← Option.some.inj h2]
  · rw [if_pos e1] at h1; rw [if_neg e2] at h2
    rw [e1] at hf
    rw [show fieldsStr (toLowerStr "") = [] from rfl] at hf
    cases hf2 : fieldsStr (toLowerStr r2.userAgent) with
    | nil => rw [hf2] at h2; exact absurd h2 (by simp)
    | cons t ts => rw [hf2] at hf; exact absurd hf (by simp)
  · rw [if_neg e1] at h1; rw [if_pos e2] at h2
    rw [e2] at hf
    rw [show fieldsStr (toLowerStr "") = [] from rfl] at hf
    cases hf1 : fieldsStr (toLowerStr r1.userAgent) with
    | nil => rw [hf1] at h1; exact absurd h1 (by simp)
    | cons t ts => rw [hf1] at hf; exact absurd hf (by simp)
  · rw [if_neg e1] at h1; rw [if_neg e2] at h2
    cases hf1 : fieldsStr (toLowerStr r1.userAgent) with
    | nil => rw [hf1] at h1; exact absurd h1 (by simp)
    | cons t1 ts1 =>
      cases hf2 : fieldsStr (toLowerStr r2.userAgent) with
      | nil => rw [hf2] at h2; exact absurd h2 (by simp)
      | cons t2 ts2 =>
        rw [hf1] at h1; rw [hf2] at h2
        rw [hf1, hf2] at hf
        have ht : t1 = t2 := by simpa using hf
        rw [← Option.some.inj h1, ← Option.some.inj h2, ht]

lemma langComp_of_field (r1 r2 : HttpRequest) (l1 l2 : List String)
    (hf : langPrefixField r1 = langPrefixField r2)
    (h1 : langComp r1 = some l1) (h2 : langComp r2 = some l2) : l1 = l2 := by
  unfold langComp at h1 h2
  unfold langPrefixField at hf
  by_cases e1 : r1.acceptLanguage = "" <;> by_cases e2 : r2.acceptLanguage = ""
  · rw [if_pos e1] at h1; rw [if_pos e2] at h2
    rw [← Option.some.inj h1, ← Option.some.inj h2]
  · rw [if_pos e1, if_neg e2] at hf; exact absurd hf (by simp)
  · rw [if_neg e1, if_pos e2] at hf; exact absurd hf (by simp)
  · rw [if_neg e1] at h1 hf; rw [if_neg e2] at h2 hf
    by_cases d1 : r1.acceptLanguage.data.length < 2
    · rw [if_pos d1] at h1; exact absurd h1 (by simp)
    · by_cases d2 : r2.acceptLanguage.data.length < 2
      · rw [if_pos d2] at h2; exact absurd h2 (by simp)
      · rw [if_neg d1] at h1; rw [if_neg d2] at h2
        have hp : (⟨r1.acceptLanguage.data.take 2⟩ : String) =
            ⟨r2.acceptLanguage.data.take 2⟩ := by simpa using hf
        rw [← Option.some.inj h1, ← Option.some.inj h2, hp]

lemma identList_congr (h : String → String) (r1 r2 : HttpRequest)
    (hip : resolvedIP r1 = resolvedIP r2) (hua : uaComp r1 = uaComp r2)
    (hlang : langComp r1 = langComp r2)
    (hsess : sessComp h r1 = sessComp h r2) :
    identList h r1 = identList h r2 := by
  unfold identList
  rw [hip, hua, hlang, hsess]

/-- Claim C7, counterexample: two requests that agree on resolved IP,
User-Agent token and cookie, and differ in exactly the claimed field (3) —
the first two characters of Accept-Language are "EN" versus "en" — yield
the SAME identifier with certainty: the code lowercases the prefix before
hashing, so the hash inputs (and hence the identifiers under any digest
function, here the identity) coincide and a difference never appears. -/
theorem claim_C7_counterexample :
    langPrefixField ⟨"10.0.0.1:1", "", "", "Mozilla/5.0", "EN-us", none⟩ ≠
      langPrefixField ⟨"10.0.0.1:1", "", "", "Mozilla/5.0", "en-us", none⟩ ∧
    ipField ⟨"10.0.0.1:1", "", "", "Mozilla/5.0", "EN-us", none⟩ =
      ipField ⟨"10.0.0.1:1", "", "", "Mozilla/5.0", "en-us", none⟩ ∧
    uaTokenField ⟨"10.0.0.1:1", "", "", "Mozilla/5.0", "EN-us", none⟩ =
      uaTokenField ⟨"10.0.0.1:1", "", "", "Mozilla/5.0", "en-us", none⟩ ∧
    cookieField ⟨"10.0.0.1:1", "", "", "Mozilla/5.0", "EN-us", none⟩ =
      cookieField ⟨"10.0.0.1:1", "", "", "Mozilla/5.0", "en-us", none⟩ ∧
    identList (fun s => s) ⟨"10.0.0.1:1", "", "", "Mozilla/5.0", "EN-us", none⟩ =
      identList (fun s => s)
        ⟨"10.0.0.1:1", "", "", "Mozilla/5.0", "en-us", none⟩ ∧
    getClientIdentifier (fun s => s)
        ⟨"10.0.0.1:1", "", "", "Mozilla/5.0", "EN-us", none⟩ =
      getClientIdentifier (fun s => s)
        ⟨"10.0.0.1:1", "", "", "Mozilla/5.0", "en-us", none⟩ ∧
    (getClientIdentifier (fun s => s)
        ⟨"10.0.0.1:1", "", "", "Mozilla/5.0", "EN-us", none⟩).isSome = true := by
  refine ⟨by decide, by decide, by decide, by decide, by decide, by decide,
    by decide⟩

/-- Claim C7 (amended): (a) the identifier is deterministic in the claim's
four fields — whenever two requests agree on resolved IP, lowercased
User-Agent first token, Accept-Language first-two-characters and session
cookie value, and both produce an identifier, the identifiers are equal;
and (b) two requests that differ in exactly one NORMALIZED component — the
resolved IP, the `ua:` token component, the `lang:` component (lowercased
trimmed two-character prefix), or the `sess:` digest component — produce
different inputs to the final hash, hence different identifiers except for
truncated-digest collisions (the claim's "overwhelming probability").  The
original claim's field (3), the raw first-two-characters of
Accept-Language, is corrected to its lowercased trimmed form: raw prefixes
differing only in letter case collapse to the same identifier. -/
theorem claim_C7_theorem (h : String → String) (r1 r2 : HttpRequest) :
    ((identList h r1).isSome = true → (identList h r2).isSome = true →
      ipField r1 = ipField r2 → uaTokenField r1 = uaTokenField r2 →
      langPrefixField r1 = langPrefixField r2 →
      cookieField r1 = cookieField r2 →
      getClientIdentifier h r1 = getClientIdentifier h r2) ∧
    (∀ L1 L2, identList h r1 = some L1 → identList h r2 = some L2 →
      resolvedIP r1 ≠ resolvedIP r2 → uaComp r1 = uaComp r2 →
      langComp r1 = langComp r2 → sessComp h r1 = sessComp h r2 →
      joinBar L1 ≠ joinBar L2) ∧
    (∀ L1 L2, identList h r1 = some L1 → identList h r2 = some L2 →
      resolvedIP r1 = resolvedIP r2 → uaComp r1 ≠ uaComp r2 →
      langComp r1 = langComp r2 → sessComp h r1 = sessComp h r2 →
      joinBar L1 ≠ joinBar L2) ∧
    (∀ L1 L2, identList h r1 = some L1 → identList h r2 = some L2 →
      resolvedIP r1 = resolvedIP r2 → uaComp r1 = uaComp r2 →
      langComp r1 ≠ langComp r2 → sessComp h r1 = sessComp h r2 →
      joinBar L1 ≠ joinBar L2) ∧
    (∀ L1 L2, identList h r1 = some L1 → identList h r2 = some L2 →
      resolvedIP r1 = resolvedIP r2 → uaComp r1 = uaComp r2 →
      langComp r1 = langComp r2 → sessComp h r1 ≠ sessComp h r2 →
      joinBar L1 ≠ joinBar L2) := by
  refine ⟨?_, ?_, ?_, ?_, ?_⟩
  · intro hd1 hd2 hip hua hlang hcookie
    obtain ⟨L1, hL1⟩ := Option.isSome_iff_exists.mp hd1
    obtain ⟨L2, hL2⟩ := Option.isSome_iff_exists.mp hd2
    obtain ⟨u1, l1, hu1, hl1, _⟩ := identList_parts h r1 L1 hL1
    obtain ⟨u2, l2, hu2, hl2, _⟩ := identList_parts h r2 L2 hL2
    have huaeq : uaComp r1 = uaComp r2 := by
      rw [hu1, hu2, uaComp_of_field r1 r2 u1 u2 hua hu1 hu2]
    have hlangeq : langComp r1 = langComp r2 := by
      rw [hl1, hl2, langComp_of_field r1 r2 l1 l2 hlang hl1 hl2]
    unfold getClientIdentifier
    rw [identList_congr h r1 r2 hip huaeq hlangeq
      (sessComp_congr h r1 r2 hcookie)]
  · intro L1 L2 hL1 hL2 hip hua hlang hsess hjoin
    obtain ⟨u1, l1, hu1, hl1, hL1e⟩ := identList_parts h r1 L1 hL1
    obtain ⟨u2, l2, hu2, hl2, hL2e⟩ := identList_parts h r2 L2 hL2
    have huu : u1 = u2 := by rw [hu1] at hua; rw [hu2] at hua; exact Option.some.inj hua
    have hll : l1 = l2 := by rw [hl1] at hlang; rw [hl2] at hlang; exact Option.some.inj hlang
    have hmeq := joinBar_slot_inj [] ["ip:" ++ resolvedIP r1]
      ["ip:" ++ resolvedIP r2] (u2 ++ l2 ++ sessComp h r2)
      (Or.inr ⟨_, rfl, strAppend_ne_empty_left "ip:" _ (by decide)⟩)
      (Or.inr ⟨_, rfl, strAppend_ne_empty_left "ip:" _ (by decide)⟩)
      (by
        rw [hL1e, hL2e, huu, hll, hsess] at hjoin
        simpa using hjoin)
    have hipc : "ip:" ++ resolvedIP r1 = "ip:" ++ resolvedIP r2 := by
      simpa using hmeq
    exact hip (strAppend_left_cancel "ip:" _ _ hipc)
  · intro L1 L2 hL1 hL2 hip hua hlang hsess hjoin
    obtain ⟨u1, l1, hu1, hl1, hL1e⟩ := identList_parts h r1 L1 hL1
    obtain ⟨u2, l2, hu2, hl2, hL2e⟩ := identList_parts h r2 L2 hL2
    have hll : l1 = l2 := by rw [hl1] at hlang; rw [hl2] at hlang; exact Option.some.inj hlang
    have hmeq := joinBar_slot_inj ["ip:" ++ resolvedIP r2] u1 u2
      (l2 ++ sessComp h r2)
      (uaComp_shape r1 u1 hu1) (uaComp_shape r2 u2 hu2)
      (by
        rw [hL1e, hL2e, hip, hll, hsess] at hjoin
        simpa [List.append_assoc] using hjoin)
    rw [hu1, hu2, hmeq] at hua
    exact hua rfl
  · intro L1 L2 hL1 hL2 hip hua hlang hsess hjoin
    obtain ⟨u1, l1, hu1, hl1, hL1e⟩ := identList_parts h r1 L1 hL1
    obtain ⟨u2, l2, hu2, hl2, hL2e⟩ := identList_parts h r2 L2 hL2
    have huu : u1 = u2 := by rw [hu1] at hua; rw [hu2] at hua; exact Option.some.inj hua
    have hmeq := joinBar_slot_inj (("ip:" ++ resolvedIP r2) :: u2) l1 l2
      (sessComp h r2)
      (langComp_shape r1 l1 hl1) (langComp_shape r2 l2 hl2)
      (by
        rw [hL1e, hL2e, hip, huu, hsess] at hjoin
        simpa [List.append_assoc] using hjoin)
    rw [hl1, hl2, hmeq] at hlang
    exact hlang rfl
  · intro L1 L2 hL1 hL2 hip hua hlang hsess hjoin
    obtain ⟨u1, l1, hu1, hl1, hL1e⟩ := identList_parts h r1 L1 hL1
    obtain ⟨u2, l2, hu2, hl2, hL2e⟩ := identList_parts h r2 L2 hL2
    have huu : u1 = u2 := by rw [hu1] at hua; rw [hu2] at hua; exact Option.some.inj hua
    have hll : l1 = l2 := by rw [hl1] at hlang; rw [hl2] at hlang; exact Option.some.inj hlang
    have hmeq := joinBar_slot_inj (("ip:" ++ resolvedIP r2) :: (u2 ++ l2))
      (sessComp h r1) (sessComp h r2) []
      (sessComp_shape h r1) (sessComp_shape h r2)
      (by
        rw [hL1e, hL2e, hip, huu, hll] at hjoin
        simpa [List.append_assoc] using hjoin)
    exact hsess hmeq

/-- Witness for claim C7: (a) two requests whose raw User-Agents differ but
whose lowercased first tokens agree get the same identifier; (b) two
requests differing in the User-Agent token produce different fingerprint
inputs. -/
theorem claim_C7_witness :
    getClientIdentifier (fun s => s)
        ⟨"10.0.0.1:1", "", "", "Mozilla/5.0 (X11)", "en-us", none⟩ =
      getClientIdentifier (fun s => s)
        ⟨"10.0.0.1:1", "", "", "MOZILLA/5.0 test", "en-us", none⟩ ∧
    joinBar ["ip:10.0.0.1:1", "ua:mozilla/5.0", "lang:en"] ≠
      joinBar ["ip:10.0.0.1:1", "ua:chrome/91.0", "lang:en"] := by
  constructor
  · exact (claim_C7_theorem (fun s => s)
      ⟨"10.0.0.1:1", "", "", "Mozilla/5.0 (X11)", "en-us", none⟩
      ⟨"10.0.0.1:1", "", "", "MOZILLA/5.0 test", "en-us", none⟩).1
      (by decide) (by decide) (by decide) (by decide) (by decide) (by decide)
  · exact (claim_C7_theorem (fun s => s)
      ⟨"10.0.0.1:1", "", "", "Mozilla/5.0", "en-us", none⟩
      ⟨"10.0.0.1:1", "", "", "Chrome/91.0", "en-us", none⟩).2.2.1
      ["ip:10.0.0.1:1", "ua:mozilla/5.0", "lang:en"]
      ["ip:10.0.0.1:1", "ua:chrome/91.0", "lang:en"]
      (by decide) (by decide) (by decide) (by decide) (by decide) (by decide)

/-! ### RFC 3339 rendering, validation, and the zero-time pub date -/

/-- A Go `time.Time` restricted to what this pipeline produces: a UTC civil
date-time at second resolution with a four-digit year.  (Successfully parsed
RFC 1123 times with non-UTC zones render with an offset suffix instead of
`Z`; that case is outside this model, which the C10 claims do not need.) -/
structure DateTime where
  year : Nat
  month : Nat
  day : Nat
  hour : Nat
  minute : Nat
  second : Nat
deriving Repr, DecidableEq

/-- Go's zero `time.Time`: January 1 of year 1, 00:00:00 UTC. -/
def zeroTime : DateTime := ⟨1, 1, 1, 0, 0, 0⟩

/-- Field ranges producible by date parsing (year capped at four digits). -/
def DateTime.validRange (d : DateTime) : Prop :=
  1 ≤ d.year ∧ d.year ≤ 9999 ∧ 1 ≤ d.month ∧ d.month ≤ 12 ∧
    1 ≤ d.day ∧ d.day ≤ 31 ∧ d.hour ≤ 23 ∧ d.minute ≤ 59 ∧ d.second ≤ 59

instance (d : DateTime) : Decidable d.validRange := by
  unfold DateTime.validRange
  infer_instance

/-- Chronological (lexicographic field) order on civil date-times. -/
def DateTime.ltB (a b : DateTime) : Bool :=
  if a.year < b.year then true else if b.year < a.year then false
  else if a.month < b.month then true else if b.month < a.month then false
  else if a.day < b.day then true else if b.day < a.day then false
  else if a.hour < b.hour then true else if b.hour < a.hour then false
  else if a.minute < b.minute then true else if b.minute < a.minute then false
  else decide (a.second < b.second)

/-- The ASCII digit character for `n ≤ 9`. -/
def digitChar (n : Nat) : Char := Char.ofNat (48 + n)

/-- Two-digit zero-padded decimal rendering. -/
def pad2 (n : Nat) : List Char := [digitChar (n / 10), digitChar (n % 10)]

/-- Four-digit zero-padded decimal rendering. -/
def pad4 (n : Nat) : List Char := pad2 (n / 100) ++ pad2 (n % 100)

/-- Go `t.Format(time.RFC3339)` for a UTC time: `YYYY-MM-DDTHH:MM:SSZ`. -/
def formatRFC3339 (d : DateTime) : String :=
  ⟨pad4 d.year ++ '-' :: (pad2 d.month ++ '-' :: (pad2 d.day ++
    'T' :: (pad2 d.hour ++ ':' :: (pad2 d.minute ++
      ':' :: (pad2 d.second ++ ['Z'])))))⟩

/-- The numeric value of an ASCII digit character. -/
def digitVal (c : Char) : Option Nat :=
  if 48 ≤ c.toNat ∧ c.toNat ≤ 57 then some (c.toNat - 48) else none

/-- Go `time.Parse(time.RFC3339, s)`, restricted to the Z-suffixed
second-resolution subset that this repository itself renders.  (Go also
accepts numeric offsets and fractional seconds and rejects day-in-month
overflows such as February 30; none of that matters for the claims at
issue.) -/
def parseRFC3339z (s : String) : Option DateTime :=
  match s.data with
  | [y1, y2, y3, y4, c1, m1, m2, c2, d1, d2, c3, h1, h2, c4, n1, n2, c5,
      s1, s2, c6] =>
    if c1 = '-' ∧ c2 = '-' ∧ c3 = 'T' ∧ c4 = ':' ∧ c5 = ':' ∧ c6 = 'Z' then
      match digitVal y1, digitVal y2, digitVal y3, digitVal y4 with
      | some ya, some yb, some yc, some yd =>
        match digitVal m1, digitVal m2, digitVal d1, digitVal d2 with
        | some ma, some mb, some da, some db =>
          match digitVal h1, digitVal h2, digitVal n1, digitVal n2,
              digitVal s1, digitVal s2 with
          | some ha, some hb, some na, some nb, some sa, some sb =>
            let dt : DateTime :=
              ⟨ya * 1000 + yb * 100 + yc * 10 + yd, ma * 10 + mb,
                da * 10 + db, ha * 10 + hb, na * 10 + nb, sa * 10 + sb⟩
            if 1 ≤ dt.month ∧ dt.month ≤ 12 ∧ 1 ≤ dt.day ∧ dt.day ≤ 31 ∧
                dt.hour ≤ 23 ∧ dt.minute ≤ 59 ∧ dt.second ≤ 59 then
              some dt
            else none
          | _, _, _, _, _, _ => none
        | _, _, _, _ => none
      | _, _, _, _ => none
    else none
  | _ => none

/-- `FeedItem.Validate` (utils/rss_parser.go), as the predicate "no
validation error": trimmed title non-empty and title ≤ 500; trimmed link
non-empty and a parseable URL (`validURL` models
`url.ParseRequestURI` succeeding); description ≤ 2000; author ≤ 100; and a
non-empty trimmed pub_date must parse as RFC 3339.  Lengths count
characters where Go counts bytes (equal on ASCII). -/
def Validate (validURL : String → Bool) (f : FeedItem) : Bool :=
  (!(trimStr f.Title == "") && decide (f.Title.data.length ≤ 500)) &&
  (!(trimStr f.Link == "") && validURL f.Link) &&
  decide (f.Description.data.length ≤ 2000) &&
  decide (f.Author.data.length ≤ 100) &&
  (if trimStr f.PubDate == "" then true else (parseRFC3339z f.PubDate).isSome)

/-- A parsed feed entry as delivered by the gofeed library. -/
structure GoFeedItem where
  Title : String
  Link : String
  Description : String
  Published : String
  AuthorName : Option String

/-- `handleAuthor` (utils/rss_parser.go). -/
def handleAuthor (e : GoFeedItem) : String :=
  match e.AuthorName with
  | some n => n
  | none => "Unknown"

/-- The item `FetchRSSFeed` constructs from one entry: parse `Published`
as RFC 1123 with numeric timezone (`parse1123z` models `time.Parse`,
returning `none` on failure, in which case Go leaves the zero time), render
the time as RFC 3339, then sanitize. -/
def entryItem (parse1123z : String → Option DateTime) (e : GoFeedItem) :
    FeedItem :=
  FeedItem.Sanitize
    ⟨e.Title, e.Link, e.Description, handleAuthor e,
      formatRFC3339 ((parse1123z e.Published).getD zeroTime)⟩

/-- `FetchRSSFeed` (utils/rss_parser.go), given the entries the feed parser
produced: construct, sanitize and validate each item, dropping items that
fail validation. -/
def FetchRSSFeed (parse1123z : String → Option DateTime)
    (validURL : String → Bool) (entries : List GoFeedItem) : List FeedItem :=
  entries.filterMap (fun e =>
    if Validate validURL (entryItem parse1123z e) then
      some (entryItem parse1123z e)
    else none)

/-- The keys-only query predicate of `CleanupOldFeedItems`:
`pub_date < olderThan.Format(RFC3339)`, a strict lexicographic string
comparison evaluated by the store. -/
def cleanupMatches (olderThan : DateTime) (it : FeedItem) : Bool :=
  strLtB it.PubDate (formatRFC3339 olderThan)

lemma data_mk (l : List Char) : (⟨l⟩ : String).data = l := rfl

lemma ltChars_irrefl : ∀ l : List Char, ltChars l l = false
  | [] => rfl
  | c :: cs => by
    simp only [ltChars, lt_irrefl, if_false]
    exact ltChars_irrefl cs

lemma ltChars_cons_same (c : Char) (r1 r2 : List Char) :
    ltChars (c :: r1) (c :: r2) = ltChars r1 r2 := by
  simp [ltChars]

lemma ltChars_asymm : ∀ l1 l2 : List Char,
    ltChars l1 l2 = true → ltChars l2 l1 = false
  | [], [], h => by simp [ltChars] at h
  | [], _ :: _, _ => rfl
  | _ :: _, [], h => by simp [ltChars] at h
  | a :: as, b :: bs, h => by
    simp only [ltChars] at h ⊢
    rcases lt_trichotomy a b with hab | hab | hab
    · rw [if_neg (by exact not_lt_of_gt hab), if_pos hab]
    · subst hab
      rw [if_neg (lt_irrefl a), if_neg (lt_irrefl a)] at h ⊢
      exact ltChars_asymm as bs h
    · rw [if_neg (by exact not_lt_of_gt hab), if_pos hab] at h
      exact absurd h (by simp)

lemma ltChars_cons (a b : Char) (as bs : List Char) :
    ltChars (a :: as) (b :: bs) =
      (if a < b then true else if b < a then false else ltChars as bs) := rfl

lemma ltChars_append : ∀ (a1 a2 r1 r2 : List Char), a1.length = a2.length →
    ltChars (a1 ++ r1) (a2 ++ r2) =
      (if a1 = a2 then ltChars r1 r2 else ltChars a1 a2) := by
  intro a1
  induction a1 with
  | nil =>
    intro a2 r1 r2 hlen
    have ha2 : a2 = [] := by
      cases a2 with
      | nil => rfl
      | cons y ys => simp at hlen
    subst ha2
    simp
  | cons x xs ih =>
    intro a2 r1 r2 hlen
    cases a2 with
    | nil => simp at hlen
    | cons y ys =>
      have hlen2 : xs.length = ys.length := by simpa using hlen
      rw [List.cons_append, List.cons_append, ltChars_cons]
      rcases lt_trichotomy x y with hxy | hxy | hxy
      · have hne : ¬(x :: xs = y :: ys) := by
          intro hc
          exact absurd (List.head_eq_of_cons_eq hc ▸ hxy) (lt_irrefl y)
        rw [if_pos hxy, if_neg hne, ltChars_cons, if_pos hxy]
      · subst hxy
        rw [if_neg (lt_irrefl x), if_neg (lt_irrefl x), ih ys r1 r2 hlen2]
        by_cases hx : xs = ys
        · rw [if_pos hx, if_pos (by rw [hx])]
        · rw [if_neg hx, if_neg (by simpa [List.cons.injEq] using hx),
            ltChars_cons_same]
      · have hne : ¬(x :: xs = y :: ys) := by
          intro hc
          exact absurd (List.head_eq_of_cons_eq hc ▸ hxy) (lt_irrefl y)
        rw [if_neg (by exact not_lt_of_gt hxy), if_pos hxy, if_neg hne,
          ltChars_cons, if_neg (by exact not_lt_of_gt hxy), if_pos hxy]

set_option maxRecDepth 10000

set_option maxHeartbeats 1000000

lemma pad2_ltb_eq : ∀ x, x < 100 → ∀ y, y < 100 →
    ltChars (pad2 x) (pad2 y) = decide (x < y) := by decide

lemma pad2_inj (x y : Nat) (hx : x < 100) (hy : y < 100)
    (hp : pad2 x = pad2 y) : x = y := by
  have h1 := pad2_ltb_eq x hx y hy
  have h2 := pad2_ltb_eq y hy x hx
  rw [hp] at h1 h2
  rw [ltChars_irrefl] at h1 h2
  have hxy := of_decide_eq_false h1.symm
  have hyx := of_decide_eq_false h2.symm
  omega

lemma pad4_ltb_eq (x y : Nat) (hx : x ≤ 9999) (hy : y ≤ 9999) :
    ltChars (pad4 x) (pad4 y) = decide (x < y) := by
  unfold pad4
  rw [ltChars_append _ _ _ _ (by simp [pad2])]
  by_cases h : pad2 (x / 100) = pad2 (y / 100)
  · rw [if_pos h]
    have hdiv : x / 100 = y / 100 := pad2_inj _ _ (by omega) (by omega) h
    rw [pad2_ltb_eq (x % 100) (by omega) (y % 100) (by omega)]
    exact decide_eq_decide.mpr (by constructor <;> intro h2 <;> omega)
  · rw [if_neg h]
    have hne : x / 100 ≠ y / 100 := fun he => h (by rw [he])
    rw [pad2_ltb_eq (x / 100) (by omega) (y / 100) (by omega)]
    exact decide_eq_decide.mpr (by constructor <;> intro h2 <;> omega)

lemma pad4_inj (x y : Nat) (hx : x ≤ 9999) (hy : y ≤ 9999)
    (hp : pad4 x = pad4 y) : x = y := by
  have h1 := pad4_ltb_eq x y hx hy
  have h2 := pad4_ltb_eq y x hy hx
  rw [hp] at h1 h2
  rw [ltChars_irrefl] at h1 h2
  have hxy := of_decide_eq_false h1.symm
  have hyx := of_decide_eq_false h2.symm
  omega

lemma stage2 (x y : Nat) (hx : x < 100) (hy : y < 100) (c : Char)
    (r1 r2 : List Char) :
    ltChars (pad2 x ++ c :: r1) (pad2 y ++ c :: r2) =
      (if x = y then ltChars r1 r2 else decide (x < y)) := by
  rw [ltChars_append _ _ _ _ (by simp [pad2])]
  by_cases h : x = y
  · subst h
    rw [if_pos rfl, if_pos rfl, ltChars_cons_same]
  · rw [if_neg (fun hp => h (pad2_inj x y hx hy hp)), if_neg h,
      pad2_ltb_eq x hx y hy]

/-- The RFC 3339 rendering is strictly monotone in the civil date-time,
which is what makes the store's lexicographic `pub_date` comparisons
chronologically correct. -/
lemma fmt_lt (a b : DateTime) (ha : a.validRange) (hb : b.validRange)
    (h : DateTime.ltB a b = true) :
    strLtB (formatRFC3339 a) (formatRFC3339 b) = true := by
  obtain ⟨ha1, ha2, ha3, ha4, ha5, ha6, ha7, ha8, ha9⟩ := ha
  obtain ⟨hb1, hb2, hb3, hb4, hb5, hb6, hb7, hb8, hb9⟩ := hb
  unfold DateTime.ltB at h
  unfold strLtB formatRFC3339
  rw [data_mk, data_mk]
  rw [ltChars_append _ _ _ _ (by simp [pad4, pad2])]
  by_cases h1 : a.year = b.year
  · rw [if_pos (by rw [h1]), ltChars_cons_same,
      stage2 a.month b.month (by omega) (by omega)]
    rw [if_neg (by omega), if_neg (by omega)] at h
    by_cases h2 : a.month = b.month
    · rw [if_pos h2, stage2 a.day b.day (by omega) (by omega)]
      rw [if_neg (by omega), if_neg (by omega)] at h
      by_cases h3 : a.day = b.day
      · rw [if_pos h3, stage2 a.hour b.hour (by omega) (by omega)]
        rw [if_neg (by omega), if_neg (by omega)] at h
        by_cases h4 : a.hour = b.hour
        · rw [if_pos h4, stage2 a.minute b.minute (by omega) (by omega)]
          rw [if_neg (by omega), if_neg (by omega)] at h
          by_cases h5 : a.minute = b.minute
          · rw [if_pos h5]
            rw [if_neg (by omega), if_neg (by omega)] at h
            have hsec : a.second < b.second := of_decide_eq_true h
            rw [ltChars_append _ _ _ _ (by simp [pad2])]
            rw [if_neg (fun hp =>
              absurd (pad2_inj _ _ (by omega) (by omega) hp) (by omega))]
            rw [pad2_ltb_eq a.second (by omega) b.second (by omega)]
            simp [hsec]
          · rw [if_neg h5]
            have hlt : a.minute < b.minute := by
              rcases Nat.lt_trichotomy a.minute b.minute with hx | hx | hx
              · exact hx
              · exact absurd hx h5
              · rw [if_neg (by omega), if_pos hx] at h
                exact absurd h (by simp)
            simp [hlt]
        · rw [if_neg h4]
          have hlt : a.hour < b.hour := by
            rcases Nat.lt_trichotomy a.hour b.hour with hx | hx | hx
            · exact hx
            · exact absurd hx h4
            · rw [if_neg (by omega), if_pos hx] at h
              exact absurd h (by simp)
          simp [hlt]
      · rw [if_neg h3]
        have hlt : a.day < b.day := by
          rcases Nat.lt_trichotomy a.day b.day with hx | hx | hx
          · exact hx
          · exact absurd hx h3
          · rw [if_neg (by omega), if_pos hx] at h
            exact absurd h (by simp)
        simp [hlt]
    · rw [if_neg h2]
      have hlt : a.month < b.month := by
        rcases Nat.lt_trichotomy a.month b.month with hx | hx | hx
        · exact hx
        · exact absurd hx h2
        · rw [if_neg (by omega), if_pos hx] at h
          exact absurd h (by simp)
      simp [hlt]
  · rw [if_neg (fun hp =>
      absurd (pad4_inj _ _ (by omega) (by omega) hp) h1)]
    have hlt : a.year < b.year := by
      rcases Nat.lt_trichotomy a.year b.year with hx | hx | hx
      · exact hx
      · exact absurd hx h1
      · rw [if_neg (by omega), if_pos hx] at h
        exact absurd h (by simp)
    rw [pad4_ltb_eq a.year b.year (by omega) (by omega)]
    simp [hlt]

/-- Go's zero time is the chronological minimum of the valid range, so any
other valid date-time is strictly later. -/
lemma zero_ltB_of_validRange (d : DateTime) (hd : d.validRange)
    (hne : d ≠ zeroTime) : DateTime.ltB zeroTime d = true := by
  obtain ⟨y, mo, da, ho, mi, se⟩ := d
  obtain ⟨h1, h2, h3, h4, h5, h6, h7, h8, h9⟩ := hd
  simp only at h1 h2 h3 h4 h5 h6 h7 h8 h9
  unfold DateTime.ltB zeroTime
  simp only
  by_cases hy : 1 < y
  · simp [hy]
  · have hy1 : y = 1 := by omega
    subst hy1
    rw [if_neg (by omega), if_neg (by omega)]
    by_cases hm : 1 < mo
    · simp [hm]
    · have hm1 : mo = 1 := by omega
      subst hm1
      rw [if_neg (by omega), if_neg (by omega)]
      by_cases hda : 1 < da
      · simp [hda]
      · have hda1 : da = 1 := by omega
        subst hda1
        rw [if_neg (by omega), if_neg (by omega)]
        by_cases hho : 0 < ho
        · simp [hho]
        · have hho0 : ho = 0 := by omega
          subst hho0
          rw [if_neg (by omega), if_neg (by omega)]
          by_cases hmi : 0 < mi
          · simp [hmi]
          · have hmi0 : mi = 0 := by omega
            subst hmi0
            rw [if_neg (by omega), if_neg (by omega)]
            by_cases hse : 0 < se
            · simp [hse]
            · have hse0 : se = 0 := by omega
              subst hse0
              exact absurd rfl hne

/-- Claim C10, counterexample: the zero-dated item is NOT matched by every
cleanup cutoff.  `CleanupOldFeedItems` filters with the strict comparison
`pub_date < cutoff`, so the degenerate cutoff equal to the zero time itself
(whose RFC 3339 rendering is exactly the item's pub_date) fails to match. -/
theorem claim_C10_counterexample :
    formatRFC3339 zeroTime = "0001-01-01T00:00:00Z" ∧
    cleanupMatches zeroTime
      ⟨"T", "https://a/1", "", "A", "0001-01-01T00:00:00Z"⟩ = false := by
  constructor
  · decide
  · decide

/-- Claim C10 (amended): for every feed entry whose `Published` string fails
to parse as RFC 1123 with numeric timezone, the constructed item's PubDate
is the zero time rendered as RFC 3339 (`0001-01-01T00:00:00Z`); that string
passes the pub_date validation check, so the item is stored whenever its
remaining fields validate; it sorts strictly after every genuinely dated
item (any valid date-time other than the zero time) in pub_date-descending
order; and it is matched by every cleanup cutoff STRICTLY LATER than the
zero time (the original claim said "every cleanup cutoff", but the cutoff
equal to the zero time itself does not match under the strict `<`). -/
theorem claim_C10_zero_pubdate (parse1123z : String → Option DateTime)
    (validURL : String → Bool) (e : GoFeedItem)
    (hfail : parse1123z e.Published = none) :
    (entryItem parse1123z e).PubDate = "0001-01-01T00:00:00Z" ∧
    (parseRFC3339z (entryItem parse1123z e).PubDate).isSome = true ∧
    (Validate validURL (entryItem parse1123z e) = true →
      FetchRSSFeed parse1123z validURL [e] = [entryItem parse1123z e]) ∧
    (∀ d : DateTime, d.validRange → d ≠ zeroTime →
      strLtB (entryItem parse1123z e).PubDate (formatRFC3339 d) = true ∧
      strLtB (formatRFC3339 d) (entryItem parse1123z e).PubDate = false) ∧
    (∀ cutoff : DateTime, cutoff.validRange → cutoff ≠ zeroTime →
      cleanupMatches cutoff (entryItem parse1123z e) = true) := by
  have hpd : (entryItem parse1123z e).PubDate = "0001-01-01T00:00:00Z" := by
    show trimStr (formatRFC3339 ((parse1123z e.Published).getD zeroTime)) = _
    rw [hfail]
    decide
  have hzfmt : formatRFC3339 zeroTime = "0001-01-01T00:00:00Z" := by decide
  have hsorts : ∀ d : DateTime, d.validRange → d ≠ zeroTime →
      strLtB (entryItem parse1123z e).PubDate (formatRFC3339 d) = true ∧
      strLtB (formatRFC3339 d) (entryItem parse1123z e).PubDate = false := by
    intro d hd hne
    have hlt := fmt_lt zeroTime d (by decide) hd
      (zero_ltB_of_validRange d hd hne)
    rw [hpd, ← hzfmt]
    refine ⟨hlt, ?_⟩
    unfold strLtB at hlt ⊢
    exact ltChars_asymm _ _ hlt
  refine ⟨hpd, ?_, ?_, hsorts, ?_⟩
  · rw [hpd]
    decide
  · intro hval
    unfold FetchRSSFeed
    simp [hval]
  · intro cutoff hc hne
    unfold cleanupMatches
    exact (hsorts cutoff hc hne).1

/-- Witness for claim C10: a concrete entry with an unparseable `Published`
string; the stored item carries the zero-time pub date, survives the
pipeline, and is matched by a 2024 cleanup cutoff. -/
theorem claim_C10_witness :
    (entryItem (fun _ => none)
        ⟨"Title", "https://a/1", "Desc", "not-a-date", some "Alice"⟩).PubDate =
      "0001-01-01T00:00:00Z" ∧
    FetchRSSFeed (fun _ => none) (fun _ => true)
        [⟨"Title", "https://a/1", "Desc", "not-a-date", some "Alice"⟩] =
      [⟨"Title", "https://a/1", "Desc", "Alice", "0001-01-01T00:00:00Z"⟩] ∧
    cleanupMatches ⟨2024, 1, 1, 0, 0, 0⟩
      (entryItem (fun _ => none)
        ⟨"Title", "https://a/1", "Desc", "not-a-date", some "Alice"⟩) = true := by
  have h := claim_C10_zero_pubdate (fun _ => none) (fun _ => true)
    ⟨"Title", "https://a/1", "Desc", "not-a-date", some "Alice"⟩ rfl
  refine ⟨h.1, ?_, h.2.2.2.2 ⟨2024, 1, 1, 0, 0, 0⟩ (by decide) (by decide)⟩
  rw [h.2.2.1 (by decide)]
  decide

end RSS
